import Mathlib

/-!
Shallow embedding of the ODIE engine (src/odie) in Lean 4, together with
theorems settling the frozen claims about its specification.

Conventions of the embedding:
* Python `int` is modelled as `Int`; `Optional[int]` as `Option Int`.
* `total_damage_adj_usd` is a Python `float`; it is modelled at integer
  precision (`Option Int`).  No claim below depends on non-integral damage
  values, and the sentinel `-1.0` used by the code is modelled as `-1`.
* Python exceptions are modelled with `Option`/`Except`: a `none`/`.error`
  result marks the point where the Python code would raise.
* Python's builtin `sorted` on integer lists is modelled by `List.mergeSort`
  with `≤`: on a total order whose equal elements are identical, every
  sorting algorithm returns the same list, so the model is exact.
* Python lists used as stacks (`append`/`pop`) are modelled as Lean lists
  with the top of the stack at the head.
-/

namespace Odie

/-! ### Data model (src/odie/models.py) -/

/-- One disaster event record (`DisasterEvent`, models.py). -/
structure DisasterEvent where
  event_id : Nat
  dis_no : String
  country : String
  disaster_type : String
  disaster_subtype : String
  start_year : Int
  start_month : Option Int
  start_day : Option Int
  end_year : Option Int
  end_month : Option Int
  end_day : Option Int
  total_deaths : Option Int
  total_affected : Option Int
  total_damage_adj_usd : Option Int
deriving DecidableEq, Repr

/-- Used to model Python's indexing `self.events[eid]`; every theorem below
restricts to in-range ids, where the default is never hit. -/
def defaultEvent : DisasterEvent :=
  { event_id := 0, dis_no := "", country := "", disaster_type := "",
    disaster_subtype := "", start_year := 0, start_month := none,
    start_day := none, end_year := none, end_month := none, end_day := none,
    total_deaths := none, total_affected := none, total_damage_adj_usd := none }

/-- Python `x or d` on an optional integer: `None` and `0` are falsy. -/
def orTruthy (x : Option Int) (d : Int) : Int :=
  match x with
  | none => d
  | some v => if v = 0 then d else v

/-- `DisasterEvent.start_date_key` (models.py): YYYYMMDD composite key,
month/day defaulting to 1 via Python truthiness. -/
def DisasterEvent.start_date_key (e : DisasterEvent) : Int :=
  e.start_year * 10000 + orTruthy e.start_month 1 * 100 + orTruthy e.start_day 1

/-! ### DSA primitives (src/odie/dsa.py) -/

/-- `_merge` (dsa.py): merge two runs; `take_left = (a > b) if reverse
else (a <= b)`. -/
def mergeRun {α β : Type} [LinearOrder β] (key : α → β) (reverse : Bool) :
    List α → List α → List α
  | [], right => right
  | left, [] => left
  | a :: ls, b :: rs =>
    let takeLeft := if reverse then key b < key a else key a ≤ key b
    if takeLeft then a :: mergeRun key reverse ls (b :: rs)
    else b :: mergeRun key reverse (a :: ls) rs
termination_by l r => l.length + r.length

/-- `merge_sort` (dsa.py): recursive split at the midpoint. -/
def merge_sort {α β : Type} [LinearOrder β] (key : α → β) (reverse : Bool)
    (arr : List α) : List α :=
  if arr.length ≤ 1 then arr
  else
    let mid := arr.length / 2
    mergeRun key reverse
      (merge_sort key reverse (arr.take mid))
      (merge_sort key reverse (arr.drop mid))
termination_by arr.length
decreasing_by
  · simpa using Nat.lt_of_lt_of_le (Nat.div_lt_self (by omega) (by omega)) le_rfl
  · simp only [List.length_drop]
    omega

/-- `intersect_sorted` (dsa.py): two-pointer intersection of sorted lists. -/
def intersect_sorted : List Nat → List Nat → List Nat
  | [], _ => []
  | _ :: _, [] => []
  | x :: xs, y :: ys =>
    if x = y then x :: intersect_sorted xs ys
    else if x < y then intersect_sorted xs (y :: ys)
    else intersect_sorted (x :: xs) ys
termination_by a b => a.length + b.length

/-- Model of Python's builtin `sorted` on a list of naturals. -/
def pySorted (l : List Nat) : List Nat :=
  l.mergeSort (fun a b => a ≤ b)

/-- Model of Python's builtin `sorted` on a list of integers. -/
def pySortedInt (l : List Int) : List Int :=
  l.mergeSort (fun a b => a ≤ b)

/-- The merge phase of `_union_sorted` (engine.py): on a tie both pointers
advance and the element is emitted once. -/
def unionMerge : List Nat → List Nat → List Nat
  | [], b => b
  | a :: as_, [] => a :: as_
  | x :: xs, y :: ys =>
    if x = y then x :: unionMerge xs ys
    else if x < y then x :: unionMerge xs (y :: ys)
    else y :: unionMerge (x :: xs) ys
termination_by a b => a.length + b.length

/-- The final adjacent-deduplication pass of `_union_sorted` (engine.py);
`prev` starts as Python `None`, so the first element is always kept. -/
def uniqAdj : Option Nat → List Nat → List Nat
  | _, [] => []
  | prev, x :: xs =>
    if prev = some x then uniqAdj (some x) xs else x :: uniqAdj (some x) xs

/-- `_union_sorted` (engine.py): sort both sides, merge, deduplicate. -/
def union_sorted (left_ids right_ids : List Nat) : List Nat :=
  uniqAdj none (unionMerge (pySorted left_ids) (pySorted right_ids))

/-! ### Indices (src/odie/indices.py)

Python dicts are modelled as insertion-ordered association lists with unique
keys; `d.setdefault(k, []).append(v)` appends `v` to the bucket of `k`,
creating the bucket at the end of the dict when absent. -/

/-- Python `d.get(k, [])`. -/
def dictGet {κ : Type} [DecidableEq κ] (d : List (κ × List Nat)) (k : κ) :
    List Nat :=
  match d with
  | [] => []
  | (k', v) :: rest => if k' = k then v else dictGet rest k

/-- Python `d.setdefault(k, []).append(v)`. -/
def dictAppend {κ : Type} [DecidableEq κ] (d : List (κ × List Nat)) (k : κ)
    (v : Nat) : List (κ × List Nat) :=
  match d with
  | [] => [(k, [v])]
  | (k', vs) :: rest =>
    if k' = k then (k', vs ++ [v]) :: rest
    else (k', vs) :: dictAppend rest k v

/-- `Indices` (indices.py). -/
structure Indices where
  by_country : List (String × List Nat)
  by_type : List (String × List Nat)
  year_to_ids : List (Int × List Nat)
  years_sorted : List Int
deriving DecidableEq, Repr

/-- The bucket-filling loop of `build_indices` (indices.py), over the three
dictionaries at once. -/
def buildStep
    (acc : List (String × List Nat) × List (String × List Nat) ×
      List (Int × List Nat)) (e : DisasterEvent) :
    List (String × List Nat) × List (String × List Nat) ×
      List (Int × List Nat) :=
  (dictAppend acc.1 e.country e.event_id,
   dictAppend acc.2.1 e.disaster_type e.event_id,
   dictAppend acc.2.2 e.start_year e.event_id)

/-- `build_indices` (indices.py): fill the buckets, sort every bucket, and
sort the distinct years. -/
def build_indices (events : List DisasterEvent) : Indices :=
  let acc := events.foldl buildStep ([], [], [])
  { by_country := acc.1.map (fun p => (p.1, pySorted p.2)),
    by_type := acc.2.1.map (fun p => (p.1, pySorted p.2)),
    year_to_ids := acc.2.2.map (fun p => (p.1, pySorted p.2)),
    years_sorted := pySortedInt (acc.2.2.map Prod.fst) }

/-- CPython's `bisect_left` loop.  The interval shrinks strictly each
iteration, so `fuel = a.length + 1` always suffices (proved below). -/
def bisectLeftLoop (a : List Int) (x : Int) : Nat → Nat → Nat → Nat
  | 0, lo, _ => lo
  | fuel + 1, lo, hi =>
    if lo < hi then
      let mid := (lo + hi) / 2
      if a.getD mid 0 < x then bisectLeftLoop a x fuel (mid + 1) hi
      else bisectLeftLoop a x fuel lo mid
    else lo

/-- `bisect.bisect_left a x` (CPython). -/
def bisect_left (a : List Int) (x : Int) : Nat :=
  bisectLeftLoop a x (a.length + 1) 0 a.length

/-- CPython's `bisect_right` loop. -/
def bisectRightLoop (a : List Int) (x : Int) : Nat → Nat → Nat → Nat
  | 0, lo, _ => lo
  | fuel + 1, lo, hi =>
    if lo < hi then
      let mid := (lo + hi) / 2
      if x < a.getD mid 0 then bisectRightLoop a x fuel lo mid
      else bisectRightLoop a x fuel (mid + 1) hi
    else lo

/-- `bisect.bisect_right a x` (CPython). -/
def bisect_right (a : List Int) (x : Int) : Nat :=
  bisectRightLoop a x (a.length + 1) 0 a.length

/-- `year_range_ids` (indices.py): slice the sorted distinct years with two
binary searches, concatenate the year buckets, and sort. -/
def year_range_ids (idx : Indices) (y1 y2 : Int) : List Nat :=
  let lo := bisect_left idx.years_sorted y1
  let hi := bisect_right idx.years_sorted y2
  let slice := (idx.years_sorted.drop lo).take (hi - lo)
  pySorted (slice.foldl (fun out y => out ++ dictGet idx.year_to_ids y) [])

/-- A single-dictionary bucket fold. -/
def foldDict {κ : Type} [DecidableEq κ] (kf : DisasterEvent → κ)
    (events : List DisasterEvent) (d : List (κ × List Nat)) :
    List (κ × List Nat) :=
  events.foldl (fun d e => dictAppend d (kf e) e.event_id) d

/-- The loader (loader.py) assigns `event_id = i` for the i-th row; the engine
indexes `self.events[eid]` with these ids, so well-formed datasets satisfy
this. -/
def EventsWF (events : List DisasterEvent) : Prop :=
  ∀ (i : Nat) (h : i < events.length), (events[i]).event_id = i

/-- Python regex `\\s` (ASCII part). -/
def isSpaceChar (c : Char) : Bool :=
  c = ' ' || c = '\t' || c = '\n' || c = '\x0d' || c = '\x0b' || c = '\x0c'

/-- Python `str.lower()` (ASCII model). -/
def pyLower (s : String) : String :=
  String.mk (s.data.map Char.toLower)

/-- Python `str.strip()`: drop leading and trailing whitespace. -/
def pyStrip (s : String) : String :=
  String.mk (((s.data.dropWhile (fun c => isSpaceChar c)).reverse.dropWhile
    (fun c => isSpaceChar c)).reverse)

/-- Decimal digits to a natural number. -/
def digitsToNat : List Char → Nat
  | [] => 0
  | c :: rest => digitsToNat rest + (c.toNat - 48) * 10 ^ rest.length

/-- Python `int(string)`: optional sign and decimal digits (a simplified
model of the accepted syntax); `none` is the `ValueError`. -/
def strToInt? (s : List Char) : Option Int :=
  match s with
  | '-' :: ds =>
    if ds ≠ [] ∧ ds.all Char.isDigit then some (-(digitsToNat ds : Int))
    else none
  | '+' :: ds =>
    if ds ≠ [] ∧ ds.all Char.isDigit then some (digitsToNat ds : Int)
    else none
  | ds =>
    if ds ≠ [] ∧ ds.all Char.isDigit then some (digitsToNat ds : Int)
    else none

/-! ### Python values and the query predicates (engine.py)

Values flowing through the evaluator are ints, floats, strings and `None`.
Floats are modelled as rationals: the claims below never compute with
non-integral floats, and `none` marks the `TypeError` Python raises on
unsupported comparisons (e.g. `None >= 1`). -/

inductive PyVal where
  | int (i : Int)
  | float (q : Rat)
  | str (s : String)
  | none_
deriving DecidableEq, Repr

/-- Numeric view of a value (Python int/float cross-type arithmetic). -/
def PyVal.toRat? : PyVal → Option Rat
  | .int i => some (i : Rat)
  | .float q => some q
  | _ => none

/-- Python `==`: cross-type numeric equality, same-type structural equality,
`False` across incompatible types (never an error). -/
def pyEq (a b : PyVal) : Bool :=
  match a.toRat?, b.toRat? with
  | some x, some y => x = y
  | _, _ =>
    match a, b with
    | .str s, .str t => s = t
    | .none_, .none_ => true
    | _, _ => false

/-- Python `<=`; `none` is the `TypeError` on unordered operands. -/
def pyLe (a b : PyVal) : Option Bool :=
  match a, b with
  | .str s, .str t => some (s ≤ t)
  | _, _ =>
    match a.toRat?, b.toRat? with
    | some x, some y => some (x ≤ y)
    | _, _ => none

/-- Python `<`; `none` is the `TypeError` on unordered operands. -/
def pyLt (a b : PyVal) : Option Bool :=
  match a, b with
  | .str s, .str t => some (s < t)
  | _, _ =>
    match a.toRat?, b.toRat? with
    | some x, some y => some (x < y)
    | _, _ => none

/-- Python `>=`. -/
def pyGe (a b : PyVal) : Option Bool := pyLe b a

/-- Python `>`. -/
def pyGt (a b : PyVal) : Option Bool := pyLt b a

/-- Python `str(v)`.  The float repr is approximated (no claim computes it on
floats). -/
def pyStr : PyVal → String
  | .int i => toString i
  | .float q => toString q
  | .str s => s
  | .none_ => "None"

/-- Python `int(v)`: ints unchanged, floats truncated toward zero, strings
parsed as a signed decimal after stripping whitespace (a simplified model of
Python's accepted syntax), `None` a `TypeError`. -/
def pyToInt : PyVal → Option Int
  | .int i => some i
  | .float q => some (if q < 0 then -((-q).floor) else q.floor)
  | .str s => strToInt? (pyStrip s).data
  | .none_ => none

/-- Python `small in big` on strings. -/
def strContains (big small : String) : Bool :=
  decide (List.IsInfix small.data big.data)

/-- `Optional[int]` attribute as a Python value. -/
def optIntVal : Option Int → PyVal
  | none => .none_
  | some v => .int v

/-- Python `getattr(e, fname, None)` on the dataclass fields.  A name that
would resolve to a method of the Python object is modelled as `None`: the
claims below rely only on the error behaviour of such lookups, which
coincides (equality is `False`-y, ordering raises, `contains` succeeds). -/
def pyGetattr (e : DisasterEvent) (fname : String) : PyVal :=
  if fname = "event_id" then .int e.event_id
  else if fname = "dis_no" then .str e.dis_no
  else if fname = "country" then .str e.country
  else if fname = "disaster_type" then .str e.disaster_type
  else if fname = "disaster_subtype" then .str e.disaster_subtype
  else if fname = "start_year" then .int e.start_year
  else if fname = "start_month" then optIntVal e.start_month
  else if fname = "start_day" then optIntVal e.start_day
  else if fname = "end_year" then optIntVal e.end_year
  else if fname = "end_month" then optIntVal e.end_month
  else if fname = "end_day" then optIntVal e.end_day
  else if fname = "total_deaths" then optIntVal e.total_deaths
  else if fname = "total_affected" then optIntVal e.total_affected
  else if fname = "total_damage_adj_usd" then optIntVal e.total_damage_adj_usd
  else .none_

/-- The `get` closure of `_make_predicate` (engine.py): known fields with
sentinel `-1` for missing numerics, then generic attribute lookup. -/
def predGet (field : String) (e : DisasterEvent) : PyVal :=
  let fname := pyLower field
  if fname = "country" then .str e.country
  else if fname = "type" ∨ fname = "disaster_type" then .str e.disaster_type
  else if fname = "subtype" ∨ fname = "disaster_subtype" then
    .str e.disaster_subtype
  else if fname = "start_year" ∨ fname = "year" then .int e.start_year
  else if fname = "total_deaths" ∨ fname = "deaths" then
    .int ((e.total_deaths).getD (-1))
  else if fname = "total_affected" ∨ fname = "affected" then
    .int ((e.total_affected).getD (-1))
  else if fname = "damage" ∨ fname = "total_damage_adj_usd" ∨
      fname = "damages" then
    .int ((e.total_damage_adj_usd).getD (-1))
  else if fname = "dis_no" ∨ fname = "disno" then .str e.dis_no
  else pyGetattr e fname

/-- `_make_predicate` (engine.py).  The outer `none` models the `ValueError`
for an unsupported operator; the inner `none` models a `TypeError` raised
while comparing a record. -/
def make_predicate (field op : String) (val : PyVal) :
    Option (DisasterEvent → Option Bool) :=
  if op = "contains" then
    some (fun e =>
      some (strContains (pyLower (pyStr (predGet field e)))
        (pyLower (pyStr val))))
  else if op = "==" then some (fun e => some (pyEq (predGet field e) val))
  else if op = "!=" then some (fun e => some (!pyEq (predGet field e) val))
  else if op = ">=" then some (fun e => pyGe (predGet field e) val)
  else if op = "<=" then some (fun e => pyLe (predGet field e) val)
  else if op = ">" then some (fun e => pyGt (predGet field e) val)
  else if op = "<" then some (fun e => pyLt (predGet field e) val)
  else none

/-! ### Query AST and evaluator (engine.py) -/

/-- AST nodes (`And`/`Or`/`Cmp`, query_lang.py). -/
inductive Node where
  | and (left right : Node)
  | or (left right : Node)
  | cmp (field : String) (op : String) (value : PyVal)
deriving DecidableEq, Repr

/-- The fallback linear scan of `_apply_cmp`: collect matching ids in
candidate order; the first `TypeError` aborts the scan, as the Python
exception would. -/
def scanFilter (events : List DisasterEvent)
    (pred : DisasterEvent → Option Bool) : List Nat → Option (List Nat)
  | [] => some []
  | eid :: rest =>
    match pred (events.getD eid defaultEvent) with
    | none => none
    | some true => (scanFilter events pred rest).map (fun out => eid :: out)
    | some false => scanFilter events pred rest

/-- `_apply_cmp` (engine.py). -/
def apply_cmp (events : List DisasterEvent) (idx : Indices)
    (fieldRaw op : String) (val : PyVal) (candidate_ids : List Nat) :
    Option (List Nat) :=
  let field := pyLower fieldRaw
  if op = "==" ∧ (field = "country" ∨ field = "disaster_type") then
    let ids :=
      if field = "country" then dictGet idx.by_country (pyStr val)
      else dictGet idx.by_type (pyStr val)
    some (intersect_sorted (pySorted candidate_ids) ids)
  else if (field = "start_year" ∨ field = "year") ∧ op = "==" then
    match pyToInt val with
    | none => none
    | some v =>
      some (intersect_sorted (pySorted candidate_ids)
        (dictGet idx.year_to_ids v))
  else if (field = "start_year" ∨ field = "year") ∧
      (op = ">=" ∨ op = ">" ∨ op = "<=" ∨ op = "<") then
    match idx.years_sorted with
    | [] => some []
    | y0 :: ys =>
      match pyToInt val with
      | none => none
      | some v =>
        let lo := if op = ">=" then v else if op = ">" then v + 1 else y0
        let hi :=
          if op = "<=" then v else if op = "<" then v - 1
          else ys.getLastD y0
        some (intersect_sorted (pySorted candidate_ids)
          (year_range_ids idx lo hi))
  else
    match make_predicate fieldRaw op val with
    | none => none
    | some pred => (scanFilter events pred candidate_ids).map pySorted

/-- `_eval_node` (engine.py): AND narrows progressively, OR unions two
independent evaluations. -/
def eval_node (events : List DisasterEvent) (idx : Indices) :
    Node → List Nat → Option (List Nat)
  | .and l r, candidate_ids =>
    match eval_node events idx l candidate_ids with
    | none => none
    | some left_ids => eval_node events idx r left_ids
  | .or l r, candidate_ids =>
    match eval_node events idx l candidate_ids with
    | none => none
    | some left_ids =>
      match eval_node events idx r candidate_ids with
      | none => none
      | some right_ids => some (union_sorted left_ids right_ids)
  | .cmp f op v, candidate_ids => apply_cmp events idx f op v candidate_ids

/-! ### Query language (src/odie/query_lang.py)

The tokenizer models the ordered-alternation regex `_TOKEN_RE` character by
character (ASCII classes; the claims use ASCII input only), and the parser
models the recursive-descent `_Parser` with an explicit token list in place
of the index.  The parser carries fuel; between any two recursive calls at
the same token position the grammar descends at most three levels, so the
initial fuel `3 * (#tokens + 1) + 3` is never exhausted. -/

/-- A lexed token (`Token`, query_lang.py), with keyword normalisation
(`AND`/`OR`/`CONTAINS`) already applied as in `tokenize`. -/
structure Token where
  kind : String
  value : String
deriving DecidableEq, Repr

/-- Python regex `\w` (ASCII part): letters, digits, underscore. -/
def isWordChar (c : Char) : Bool :=
  c.isAlpha || c.isDigit || c = '_'

/-- Case-insensitive match of `kw` at the head of `cs`; returns the rest. -/
def matchCI : List Char → List Char → Option (List Char)
  | [], cs => some cs
  | _ :: _, [] => none
  | k :: ks, c :: cs =>
    if c.toLower = k.toLower then matchCI ks cs else none

/-- Match `\bKW\b` (case-insensitive) given the character before the match
position (`prev`, `none` at the start of the input). -/
def kwMatch (prev : Option Char) (cs : List Char) (kw : List Char) :
    Option (List Char) :=
  if (match prev with | none => true | some c => !isWordChar c) then
    match matchCI kw cs with
    | none => none
    | some rest =>
      match rest with
      | [] => some []
      | c :: _ => if isWordChar c then none else some rest
  else none

/-- Match `-?\d+(\.\d+)?` at the head of `cs`; returns the literal text and
the rest.  The fractional part backtracks when no digit follows the dot. -/
def numberMatch (cs : List Char) : Option (List Char × List Char) :=
  let sign : List Char := match cs with | '-' :: _ => ['-'] | _ => []
  let cs1 := match cs with | '-' :: r => r | _ => cs
  let ds := cs1.takeWhile Char.isDigit
  if ds.isEmpty then none
  else
    let rest := cs1.drop ds.length
    match rest with
    | '.' :: r2 =>
      let fs := r2.takeWhile Char.isDigit
      if fs.isEmpty then some (sign ++ ds, rest)
      else some (sign ++ ds ++ '.' :: fs, r2.drop fs.length)
    | _ => some (sign ++ ds, rest)

/-- Match the quoted-string body `([^q\\]|\\.)*q` for quote `q`; returns the
body (with quotes and escapes still in place, as the regex captures them) and
the rest.  `.` does not match a newline, as in the Python regex. -/
def stringBody (q : Char) : List Char → Option (List Char × List Char)
  | [] => none
  | c :: rest =>
    if c = q then some ([q], rest)
    else if c = '\\' then
      match rest with
      | [] => none
      | d :: r2 =>
        if d = '\n' then none
        else
          match stringBody q r2 with
          | none => none
          | some (body, r3) => some (c :: d :: body, r3)
    else if c = '\n' then none
    else
      match stringBody q rest with
      | none => none
      | some (body, r2) => some (c :: body, r2)

/-- One alternative of `_TOKEN_RE`, tried in the regex order at a position
whose preceding character is `prev`.  Returns the token and the rest. -/
def matchAlt (prev : Option Char) (cs : List Char) :
    Option (Token × List Char) :=
  match cs with
  | [] => none
  | c :: rest =>
    if c = '(' then some (⟨"LPAREN", "("⟩, rest)
    else if c = ')' then some (⟨"RPAREN", ")"⟩, rest)
    else if c = '=' then
      match rest with
      | '=' :: r2 => some (⟨"OP", "=="⟩, r2)
      | _ => none
    else if c = '!' then
      match rest with
      | '=' :: r2 => some (⟨"OP", "!="⟩, r2)
      | _ => none
    else if c = '>' then
      match rest with
      | '=' :: r2 => some (⟨"OP", ">="⟩, r2)
      | _ => some (⟨"OP", ">"⟩, rest)
    else if c = '<' then
      match rest with
      | '=' :: r2 => some (⟨"OP", "<="⟩, r2)
      | _ => some (⟨"OP", "<"⟩, rest)
    else
      match kwMatch prev cs ['a', 'n', 'd'] with
      | some r2 => some (⟨"AND", "AND"⟩, r2)
      | none =>
        match kwMatch prev cs ['o', 'r'] with
        | some r2 => some (⟨"OR", "OR"⟩, r2)
        | none =>
          match kwMatch prev cs
              ['c', 'o', 'n', 't', 'a', 'i', 'n', 's'] with
          | some r2 => some (⟨"CONTAINS", "contains"⟩, r2)
          | none =>
            match numberMatch cs with
            | some (txt, r2) => some (⟨"NUMBER", String.mk txt⟩, r2)
            | none =>
              if c = '"' ∨ c = '\'' then
                match stringBody c rest with
                | some (body, r2) =>
                  some (⟨"STRING", String.mk (c :: body)⟩, r2)
                | none => none
              else if c.isAlpha ∨ c = '_' then
                let ident := c :: rest.takeWhile isWordChar
                some (⟨"IDENT", String.mk ident⟩,
                  rest.drop (rest.takeWhile isWordChar).length)
              else none

/-- The `tokenize` loop (query_lang.py): skip whitespace, match one
alternative, repeat; any unmatched character is a `ParseError`.  `prev`
tracks the character before the current position for the `\b` checks. -/
def tokenizeLoop : Nat → Option Char → List Char →
    Except String (List Token)
  | 0, _, _ => .error "tokenizer out of fuel"
  | _ + 1, _, [] => .ok []
  | fuel + 1, prev, cs =>
    let ws := cs.takeWhile (fun c => isSpaceChar c)
    let cs1 := cs.drop ws.length
    let prev1 := match ws.getLast? with | some c => some c | none => prev
    match cs1 with
    | [] => .error "Unexpected character"
    | _ :: _ =>
      match matchAlt prev1 cs1 with
      | none => .error "Unexpected character"
      | some (tok, rest) =>
        match tokenizeLoop fuel (String.mk (tok.value.data)).data.getLast? rest with
        | .error e => .error e
        | .ok toks => .ok (tok :: toks)

/-- `tokenize` (query_lang.py).  Each iteration consumes at least one
character, so fuel `length + 1` suffices. -/
def tokenize (s : String) : Except String (List Token) :=
  tokenizeLoop (s.length + 1) none s.data

/-- `_coerce_value` (query_lang.py): numbers to int (or float when dotted),
strings unquoted and escape-decoded, bare identifiers kept as strings. -/
def decodeEscapes : List Char → List Char
  | [] => []
  | '\\' :: c :: rest =>
    (match c with
     | 'n' => ['\n']
     | 't' => ['\t']
     | 'r' => ['\x0d']
     | '\\' => ['\\']
     | '\'' => ['\'']
     | '"' => ['"']
     | 'a' => ['\x07']
     | 'b' => ['\x08']
     | 'f' => ['\x0c']
     | 'v' => ['\x0b']
     | '0' => ['\x00']
     | _ => ['\\', c]) ++ decodeEscapes rest
  | c :: rest => c :: decodeEscapes rest

/-- Value of a decimal literal such as `-12.5`, as an exact rational. -/
def decimalToRat (s : List Char) : Rat :=
  match s with
  | '-' :: rest => -(decimalToRat rest)
  | _ =>
    let intPart := s.takeWhile Char.isDigit
    let rest := s.drop intPart.length
    match rest with
    | '.' :: frac =>
      (digitsToNat intPart : Rat) + (digitsToNat frac : Rat) / (10 ^ frac.length : Rat)
    | _ => (digitsToNat intPart : Rat)

/-- `_coerce_value` (query_lang.py). -/
def coerceValue (t : Token) : PyVal :=
  if t.kind = "NUMBER" then
    if t.value.data.contains '.' then .float (decimalToRat t.value.data)
    else .int ((strToInt? t.value.data).getD 0)
  else if t.kind = "STRING" then
    let s := t.value.data
    let stripped :=
      match s with
      | c :: rest =>
        if (rest.getLastD c) = c ∧ (c = '\'' ∨ c = '"') then rest.dropLast
        else s
      | [] => s
    .str (String.mk (decodeEscapes stripped))
  else .str t.value

/- `_Parser` (query_lang.py) as mutually recursive functions over the
remaining token list, with structurally decreasing fuel. -/
mutual

def parseExpr : Nat → List Token → Except String (Node × List Token)
  | 0, _ => .error "parser out of fuel"
  | fuel + 1, toks =>
    match parseTerm fuel toks with
    | .error e => .error e
    | .ok (node, rest) => parseExprLoop fuel node rest

def parseExprLoop : Nat → Node → List Token →
    Except String (Node × List Token)
  | 0, _, _ => .error "parser out of fuel"
  | fuel + 1, node, toks =>
    match toks with
    | t :: rest =>
      if t.kind = "OR" then
        match parseTerm fuel rest with
        | .error e => .error e
        | .ok (rhs, rest2) => parseExprLoop fuel (.or node rhs) rest2
      else .ok (node, toks)
    | [] => .ok (node, toks)

def parseTerm : Nat → List Token → Except String (Node × List Token)
  | 0, _ => .error "parser out of fuel"
  | fuel + 1, toks =>
    match parseFactor fuel toks with
    | .error e => .error e
    | .ok (node, rest) => parseTermLoop fuel node rest

def parseTermLoop : Nat → Node → List Token →
    Except String (Node × List Token)
  | 0, _, _ => .error "parser out of fuel"
  | fuel + 1, node, toks =>
    match toks with
    | t :: rest =>
      if t.kind = "AND" then
        match parseFactor fuel rest with
        | .error e => .error e
        | .ok (rhs, rest2) => parseTermLoop fuel (.and node rhs) rest2
      else .ok (node, toks)
    | [] => .ok (node, toks)

def parseFactor : Nat → List Token → Except String (Node × List Token)
  | 0, _ => .error "parser out of fuel"
  | fuel + 1, toks =>
    match toks with
    | t :: rest =>
      if t.kind = "LPAREN" then
        match parseExpr fuel rest with
        | .error e => .error e
        | .ok (node, rest2) =>
          match rest2 with
          | t2 :: rest3 =>
            if t2.kind = "RPAREN" then .ok (node, rest3)
            else .error "Expected RPAREN"
          | [] => .error "Expected RPAREN, got end of input"
      else parseComparison toks
    | [] => parseComparison toks

def parseComparison : List Token → Except String (Node × List Token)
  | toks =>
    match toks with
    | [] => .error "Expected IDENT, got end of input"
    | t :: rest =>
      if t.kind = "IDENT" then
        match rest with
        | t2 :: rest2 =>
          if t2.kind = "CONTAINS" then
            match rest2 with
            | t3 :: rest3 =>
              if t3.kind = "NUMBER" ∨ t3.kind = "STRING" ∨
                  t3.kind = "IDENT" then
                .ok (.cmp t.value "contains" (coerceValue t3), rest3)
              else .error "Expected a value after operator"
            | [] => .error "Expected a value after operator"
          else if t2.kind = "OP" then
            match rest2 with
            | t3 :: rest3 =>
              if t3.kind = "NUMBER" ∨ t3.kind = "STRING" ∨
                  t3.kind = "IDENT" then
                .ok (.cmp t.value t2.value (coerceValue t3), rest3)
              else .error "Expected a value after operator"
            | [] => .error "Expected a value after operator"
          else .error "Expected OP"
        | [] => .error "Expected OP, got end of input"
      else .error "Expected IDENT"

end

/-- `parse` (query_lang.py): tokenize, parse one expression, and fail when
trailing tokens remain. -/
def parse (expr : String) : Except String Node :=
  match tokenize expr with
  | .error e => .error e
  | .ok toks =>
    match parseExpr (3 * (toks.length + 1) + 3) toks with
    | .error e => .error e
    | .ok (node, rest) =>
      match rest with
      | [] => .ok node
      | t :: _ => .error (String.append "Unexpected token: " t.value)

/-! ### Engine state and operations (engine.py) -/

/-- Engine state: `QueryState.active_ids` plus the two history stacks. -/
structure Engine where
  events : List DisasterEvent
  idx : Indices
  active_ids : List Nat
  undoStack : List (List Nat)
  redoStack : List (List Nat)
deriving DecidableEq, Repr

/-- `ODIE.__post_init__`: select every event, empty history. -/
def mkEngine (events : List DisasterEvent) (idx : Indices) : Engine :=
  { events := events, idx := idx, active_ids := List.range events.length,
    undoStack := [], redoStack := [] }

/-- `_push_history`: snapshot the selection onto undo, clear redo. -/
def push_history (e : Engine) : Engine :=
  { e with undoStack := e.active_ids :: e.undoStack, redoStack := [] }

/-- `undo` (engine.py): `False` on an empty stack, otherwise swap. -/
def undo (e : Engine) : Engine × Bool :=
  match e.undoStack with
  | [] => (e, false)
  | top :: rest =>
    ({ e with
        redoStack := e.active_ids :: e.redoStack
        undoStack := rest
        active_ids := top }, true)

/-- `redo` (engine.py). -/
def redo (e : Engine) : Engine × Bool :=
  match e.redoStack with
  | [] => (e, false)
  | top :: rest =>
    ({ e with
        undoStack := e.active_ids :: e.undoStack
        redoStack := rest
        active_ids := top }, true)

/-- `reset` (engine.py). -/
def reset (e : Engine) : Engine :=
  let e1 := push_history e
  { e1 with active_ids := List.range e1.events.length }

/-- `filter_country` (engine.py). -/
def filter_country (e : Engine) (country : String) : Engine :=
  let e1 := push_history e
  { e1 with
      active_ids := intersect_sorted (pySorted e1.active_ids) (dictGet e1.idx.by_country country) }

/-- `filter_type` (engine.py). -/
def filter_type (e : Engine) (dtype : String) : Engine :=
  let e1 := push_history e
  { e1 with
      active_ids := intersect_sorted (pySorted e1.active_ids) (dictGet e1.idx.by_type dtype) }

/-- `filter_year_range` (engine.py). -/
def filter_year_range (e : Engine) (y1 y2 : Int) : Engine :=
  let e1 := push_history e
  { e1 with
      active_ids := intersect_sorted (pySorted e1.active_ids) (year_range_ids e1.idx y1 y2) }

/-- `where` (engine.py).  History is pushed *before* parsing, so a parse (or
evaluation) error leaves the already-mutated history in place; the `Bool`
records whether the operation completed. -/
def where_op (e : Engine) (expr : String) : Engine × Bool :=
  let e1 := push_history e
  match parse expr with
  | .error _ => (e1, false)
  | .ok ast =>
    match eval_node e1.events e1.idx ast e1.active_ids with
    | none => (e1, false)
    | some ids => ({ e1 with active_ids := ids }, true)

/-! ### Top-k (engine.py)

`heapq` is modelled by a list kept sorted ascending in the lexicographic
order on `(key, eid)` pairs: it has the same element multiset as the Python
heap and the same minimum at the front, and since all `(key, eid)` pairs are
distinct the final `heap.sort(reverse=True)` output depends only on that
multiset — so the model computes exactly the same `topk` output. -/

/-- Lexicographic order on heap entries `(key value, event id)`. -/
def pairLE (a b : Int × Nat) : Prop :=
  a.1 < b.1 ∨ (a.1 = b.1 ∧ a.2 ≤ b.2)

instance (a b : Int × Nat) : Decidable (pairLE a b) := by
  unfold pairLE; infer_instance

/-- Ordered insertion, modelling `heapq.heappush`. -/
def heapInsert (x : Int × Nat) : List (Int × Nat) → List (Int × Nat)
  | [] => [x]
  | y :: ys => if pairLE x y then x :: y :: ys else y :: heapInsert x ys

/-- `_field_key` (engine.py): returns `none` (Python `ValueError`) for an
unknown field; each returned key substitutes the sentinel `-1` for missing
numeric values, so it never yields a `None` key. -/
def field_key (field : String) : Option (DisasterEvent → Option Int) :=
  let f := pyStrip (pyLower field)
  if f = "deaths" ∨ f = "total_deaths" then
    some (fun e => some ((e.total_deaths).getD (-1)))
  else if f = "affected" ∨ f = "total_affected" then
    some (fun e => some ((e.total_affected).getD (-1)))
  else if f = "damage" ∨ f = "damages" ∨ f = "total_damage" ∨
      f = "total_damage_adj_usd" then
    some (fun e => some ((e.total_damage_adj_usd).getD (-1)))
  else if f = "year" ∨ f = "start_year" then some (fun e => some e.start_year)
  else if f = "date" ∨ f = "start_date" then
    some (fun e => some e.start_date_key)
  else none

/-- One iteration of the `topk` loop (engine.py): skip a `None` key, push
while the heap is below `k`, otherwise replace the minimum on a strictly
greater key.  `none` models the `IndexError` of `heap[0]` on an empty heap
(reachable when `k = 0`). -/
def topkStep (k : Nat) (key : DisasterEvent → Option Int)
    (events : List DisasterEvent) :
    Option (List (Int × Nat)) → Nat → Option (List (Int × Nat))
  | none, _ => none
  | some heap, eid =>
    match key (events.getD eid defaultEvent) with
    | none => some heap
    | some v =>
      if heap.length < k then some (heapInsert (v, eid) heap)
      else
        match heap with
        | [] => none
        | (v0, _) :: rest =>
          if v0 < v then some (heapInsert (v, eid) rest) else some heap

/-- `topk` (engine.py): `none` models the `ValueError` of `_field_key` on an
unknown field and the `IndexError` for `k = 0`; otherwise the heap, sorted
descending, is materialised back into records. -/
def topk (events : List DisasterEvent) (active_ids : List Nat) (k : Nat)
    (field : String) : Option (List DisasterEvent) :=
  match field_key field with
  | none => none
  | some key =>
    match active_ids.foldl (topkStep k key events) (some []) with
    | none => none
    | some heap =>
      some (heap.reverse.map (fun p => events.getD p.2 defaultEvent))

/-! ### Benchmark (engine.py) -/

/-- The `naive` closure of `bench` (engine.py): full linear scan. -/
def benchNaive (events : List DisasterEvent) (country dtype : String)
    (y1 y2 : Int) : List Nat :=
  events.foldl
    (fun ids e =>
      if e.country = country ∧ e.disaster_type = dtype ∧
          y1 ≤ e.start_year ∧ e.start_year ≤ y2 then
        ids ++ [e.event_id]
      else ids) []

/-- The `indexed` closure of `bench` (engine.py): three-way intersection of
index lookups. -/
def benchIndexed (idx : Indices) (country dtype : String) (y1 y2 : Int) :
    List Nat :=
  intersect_sorted
    (intersect_sorted (dictGet idx.by_country country)
      (dictGet idx.by_type dtype))
    (year_range_ids idx y1 y2)

/-! ### Concrete fixtures used by witnesses and counterexamples -/

/-- Demo record 0: an Indian flood in 2000 with 100 deaths. -/
def evA : DisasterEvent :=
  { event_id := 0, dis_no := "D0", country := "India",
    disaster_type := "Flood", disaster_subtype := "Riverine flood",
    start_year := 2000, start_month := some 6, start_day := some 1,
    end_year := none, end_month := none, end_day := none,
    total_deaths := some 100, total_affected := some 1000,
    total_damage_adj_usd := some 5000 }

/-- Demo record 1: a Nepalese earthquake in 2005 with unknown (`None`)
deaths. -/
def evB : DisasterEvent :=
  { event_id := 1, dis_no := "D1", country := "Nepal",
    disaster_type := "Earthquake", disaster_subtype := "Ground movement",
    start_year := 2005, start_month := none, start_day := none,
    end_year := none, end_month := none, end_day := none,
    total_deaths := none, total_affected := some 50,
    total_damage_adj_usd := none }

/-- Two-record demo dataset with `event_id = position`. -/
def demoEvents : List DisasterEvent := [evA, evB]

/-! ### Spec-level predicates used in the claim statements -/

/-- After a mutating operation produced `e'` from a state whose selection was
`s`, `undo` restores `s` and reports success, and `redo` immediately after
restores the filtered selection and reports success. -/
def UndoRestores (e' : Engine) (s : List Nat) : Prop :=
  (undo e').1.active_ids = s ∧ (undo e').2 = true ∧
    (redo (undo e').1).1.active_ids = e'.active_ids ∧
    (redo (undo e').1).2 = true

/-- Engine states reachable from construction by the mutating operations and
undo/redo. -/
inductive Reachable (events : List DisasterEvent) : Engine → Prop where
  | init : Reachable events (mkEngine events (build_indices events))
  | resetStep {e} : Reachable events e → Reachable events (reset e)
  | filterCountryStep {e} (c : String) :
      Reachable events e → Reachable events (filter_country e c)
  | filterTypeStep {e} (t : String) :
      Reachable events e → Reachable events (filter_type e t)
  | filterYearStep {e} (y1 y2 : Int) :
      Reachable events e → Reachable events (filter_year_range e y1 y2)
  | whereStep {e} (expr : String) :
      Reachable events e → Reachable events (where_op e expr).1
  | undoStep {e} : Reachable events e → Reachable events (undo e).1
  | redoStep {e} : Reachable events e → Reachable events (redo e).1

/-- A well-formed selection: strictly ascending ids that index into the
dataset. -/
def GoodIds (events : List DisasterEvent) (l : List Nat) : Prop :=
  List.Sorted (· < ·) l ∧ ∀ i ∈ l, i < events.length

/-- The sentinel-completed key of the record at index `i`, as ranked by
`topk` (used only in claim statements). -/
def keyAt (key : DisasterEvent → Option Int) (events : List DisasterEvent)
    (i : Nat) : Int :=
  (key (events.getD i defaultEvent)).getD 0

/-- The lower bound of the year window computed by `_apply_cmp` for an
ordering comparison: `v` for `>=`, `v+1` for `>`, else the minimum indexed
year. -/
def yearLoBound (idx : Indices) (op : String) (v : Int) : Int :=
  if op = ">=" then v else if op = ">" then v + 1
  else idx.years_sorted.headD 0

/-- The upper bound of the year window computed by `_apply_cmp`: `v` for
`<=`, `v-1` for `<`, else the maximum indexed year. -/
def yearHiBound (idx : Indices) (op : String) (v : Int) : Int :=
  if op = "<=" then v else if op = "<" then v - 1
  else idx.years_sorted.getLastD 0

/-! ### Lemmas about the set-algebra primitives -/

theorem pySorted_perm (l : List Nat) : (pySorted l).Perm l :=
  List.mergeSort_perm l _

theorem pySorted_sorted (l : List Nat) : List.Sorted (· ≤ ·) (pySorted l) :=
  List.sorted_mergeSort' l

theorem mem_pySorted {l : List Nat} {x : Nat} : x ∈ pySorted l ↔ x ∈ l :=
  (pySorted_perm l).mem_iff

theorem pySorted_nodup {l : List Nat} (h : l.Nodup) : (pySorted l).Nodup :=
  (pySorted_perm l).nodup_iff.mpr h

theorem pySorted_sorted_lt {l : List Nat} (h : l.Nodup) :
    List.Sorted (· < ·) (pySorted l) :=
  (pySorted_sorted l).lt_of_le (pySorted_nodup h)

theorem intersect_sorted_eq_cons {x : Nat} {xs ys : List Nat} :
    intersect_sorted (x :: xs) (x :: ys) = x :: intersect_sorted xs ys := by
  rw [intersect_sorted]
  simp

theorem intersect_sorted_eq_lt {x y : Nat} {xs ys : List Nat} (h : x < y) :
    intersect_sorted (x :: xs) (y :: ys) = intersect_sorted xs (y :: ys) := by
  rw [intersect_sorted]
  rw [if_neg (by omega), if_pos h]

theorem intersect_sorted_eq_gt {x y : Nat} {xs ys : List Nat} (h : y < x) :
    intersect_sorted (x :: xs) (y :: ys) = intersect_sorted (x :: xs) ys := by
  rw [intersect_sorted]
  rw [if_neg (by omega), if_neg (by omega)]

theorem intersect_sorted_sublist_left (a b : List Nat) :
    List.Sublist (intersect_sorted a b) a := by
  induction a, b using intersect_sorted.induct with
  | case1 => simp [intersect_sorted]
  | case2 => simp [intersect_sorted]
  | case3 xs y ys ih =>
    rw [intersect_sorted_eq_cons]
    exact ih.cons₂ y
  | case4 x xs y ys hne hlt ih =>
    rw [intersect_sorted_eq_lt hlt]
    exact ih.cons x
  | case5 x xs y ys hne hlt ih =>
    rw [intersect_sorted_eq_gt (by omega)]
    exact ih

theorem intersect_sorted_sublist_right (a b : List Nat) :
    List.Sublist (intersect_sorted a b) b := by
  induction a, b using intersect_sorted.induct with
  | case1 => simp [intersect_sorted]
  | case2 => simp [intersect_sorted]
  | case3 xs y ys ih =>
    rw [intersect_sorted_eq_cons]
    exact ih.cons₂ y
  | case4 x xs y ys hne hlt ih =>
    rw [intersect_sorted_eq_lt hlt]
    exact ih
  | case5 x xs y ys hne hlt ih =>
    rw [intersect_sorted_eq_gt (by omega)]
    exact ih.cons y

theorem mem_intersect_sorted {a b : List Nat}
    (ha : List.Sorted (· ≤ ·) a) (hb : List.Sorted (· ≤ ·) b) {z : Nat} :
    z ∈ intersect_sorted a b ↔ z ∈ a ∧ z ∈ b := by
  induction a, b using intersect_sorted.induct with
  | case1 => simp [intersect_sorted]
  | case2 => simp [intersect_sorted]
  | case3 xs y ys ih =>
    rw [List.sorted_cons] at ha hb
    rw [intersect_sorted_eq_cons]
    simp only [List.mem_cons, ih ha.2 hb.2]
    constructor
    · rintro (rfl | ⟨h1, h2⟩)
      · exact ⟨Or.inl rfl, Or.inl rfl⟩
      · exact ⟨Or.inr h1, Or.inr h2⟩
    · rintro ⟨rfl | h1, h2⟩
      · exact Or.inl rfl
      · rcases h2 with rfl | h2
        · exact Or.inl rfl
        · exact Or.inr ⟨h1, h2⟩
  | case4 x xs y ys hne hlt ih =>
    rw [List.sorted_cons] at ha
    rw [intersect_sorted_eq_lt hlt, ih ha.2 hb]
    simp only [List.mem_cons]
    constructor
    · rintro ⟨h1, h2⟩
      exact ⟨Or.inr h1, h2⟩
    · rintro ⟨rfl | h1, h2⟩
      · -- z = x cannot be a member of y :: ys since x < y ≤ everything there
        exfalso
        rw [List.sorted_cons] at hb
        rcases h2 with rfl | h2
        · exact hne rfl
        · exact absurd (hb.1 _ h2) (by omega)
      · exact ⟨h1, h2⟩
  | case5 x xs y ys hne hlt ih =>
    rw [List.sorted_cons] at hb
    rw [intersect_sorted_eq_gt (by omega), ih ha hb.2]
    simp only [List.mem_cons]
    constructor
    · rintro ⟨h1, h2⟩
      exact ⟨h1, Or.inr h2⟩
    · rintro ⟨h1, rfl | h2⟩
      · -- z = y cannot be a member of x :: xs since y < x ≤ everything there
        exfalso
        rw [List.sorted_cons] at ha
        rcases h1 with rfl | h1
        · exact hne rfl
        · exact absurd (ha.1 _ h1) (by omega)
      · exact ⟨h1, h2⟩

theorem unionMerge_eq_cons {x : Nat} {xs ys : List Nat} :
    unionMerge (x :: xs) (x :: ys) = x :: unionMerge xs ys := by
  rw [unionMerge]
  simp

theorem unionMerge_eq_lt {x y : Nat} {xs ys : List Nat} (h : x < y) :
    unionMerge (x :: xs) (y :: ys) = x :: unionMerge xs (y :: ys) := by
  rw [unionMerge]
  rw [if_neg (by omega), if_pos h]

theorem unionMerge_eq_gt {x y : Nat} {xs ys : List Nat} (h : y < x) :
    unionMerge (x :: xs) (y :: ys) = y :: unionMerge (x :: xs) ys := by
  rw [unionMerge]
  rw [if_neg (by omega), if_neg (by omega)]

theorem mem_unionMerge {a b : List Nat} {z : Nat} :
    z ∈ unionMerge a b ↔ z ∈ a ∨ z ∈ b := by
  induction a, b using unionMerge.induct with
  | case1 => simp [unionMerge]
  | case2 => simp [unionMerge]
  | case3 xs y ys ih =>
    rw [unionMerge_eq_cons]
    simp only [List.mem_cons, ih]
    tauto
  | case4 x xs y ys hne hlt ih =>
    rw [unionMerge_eq_lt hlt]
    simp only [List.mem_cons, ih]
    tauto
  | case5 x xs y ys hne hlt ih =>
    rw [unionMerge_eq_gt (by omega)]
    simp only [List.mem_cons, ih]
    tauto

theorem unionMerge_sorted {a b : List Nat}
    (ha : List.Sorted (· ≤ ·) a) (hb : List.Sorted (· ≤ ·) b) :
    List.Sorted (· ≤ ·) (unionMerge a b) := by
  induction a, b using unionMerge.induct with
  | case1 => simpa [unionMerge] using hb
  | case2 => simpa [unionMerge] using ha
  | case3 xs y ys ih =>
    rw [List.sorted_cons] at ha hb
    rw [unionMerge_eq_cons, List.sorted_cons]
    refine ⟨fun z hz => ?_, ih ha.2 hb.2⟩
    rcases mem_unionMerge.mp hz with h | h
    · exact ha.1 _ h
    · exact hb.1 _ h
  | case4 x xs y ys hne hlt ih =>
    rw [List.sorted_cons] at ha
    rw [unionMerge_eq_lt hlt, List.sorted_cons]
    refine ⟨fun z hz => ?_, ih ha.2 hb⟩
    rcases mem_unionMerge.mp hz with h | h
    · exact ha.1 _ h
    · rw [List.sorted_cons] at hb
      rcases List.mem_cons.mp h with rfl | h
      · omega
      · have := hb.1 _ h
        omega
  | case5 x xs y ys hne hlt ih =>
    rw [List.sorted_cons] at hb
    rw [unionMerge_eq_gt (by omega), List.sorted_cons]
    refine ⟨fun z hz => ?_, ih ha hb.2⟩
    rcases mem_unionMerge.mp hz with h | h
    · rw [List.sorted_cons] at ha
      rcases List.mem_cons.mp h with rfl | h
      · omega
      · have := ha.1 _ h
        omega
    · exact hb.1 _ h

theorem uniqAdj_spec :
    ∀ (l : List Nat) (prev : Option Nat), List.Sorted (· ≤ ·) l →
      (∀ p, prev = some p → ∀ z ∈ l, p ≤ z) →
      List.Sorted (· < ·) (uniqAdj prev l) ∧
        (∀ z, z ∈ uniqAdj prev l ↔ z ∈ l ∧ prev ≠ some z)
  | [], prev, _, _ => by simp [uniqAdj]
  | x :: xs, prev, hs, hlb => by
    rw [List.sorted_cons] at hs
    have ih := uniqAdj_spec xs (some x) hs.2
      (by rintro p ⟨rfl⟩; exact hs.1)
    by_cases hp : prev = some x
    · rw [uniqAdj, if_pos hp]
      refine ⟨ih.1, fun z => ?_⟩
      rw [ih.2]
      subst hp
      constructor
      · rintro ⟨h1, h2⟩
        exact ⟨List.mem_cons_of_mem _ h1, h2⟩
      · rintro ⟨h1, h2⟩
        rcases List.mem_cons.mp h1 with rfl | h1
        · exact absurd rfl h2
        · exact ⟨h1, h2⟩
    · rw [uniqAdj, if_neg hp]
      constructor
      · rw [List.sorted_cons]
        refine ⟨fun z hz => ?_, ih.1⟩
        have hmem := (ih.2 z).mp hz
        have hxz := hs.1 _ hmem.1
        have hne : x ≠ z := fun h => hmem.2 (by rw [h])
        omega
      · intro z
        simp only [List.mem_cons, ih.2]
        constructor
        · rintro (rfl | ⟨h1, h2⟩)
          · exact ⟨Or.inl rfl, fun h => hp h⟩
          · refine ⟨Or.inr h1, fun h => ?_⟩
            -- prev = some z with z in the tail forces z = x, contradicting hp
            have hzx : z ≤ x := hlb z h x (List.mem_cons_self x xs)
            have hxz : x ≤ z := hs.1 _ h1
            have : x = z := le_antisymm hxz hzx
            exact hp (by rw [this]; exact h)
        · rintro ⟨rfl | h1, h2⟩
          · exact Or.inl rfl
          · by_cases hzx : z = x
            · exact Or.inl hzx
            · refine Or.inr ⟨h1, fun h => hzx ?_⟩
              injection h with h
              exact h.symm

theorem union_sorted_sorted_lt (l r : List Nat) :
    List.Sorted (· < ·) (union_sorted l r) :=
  (uniqAdj_spec _ none (unionMerge_sorted (pySorted_sorted l) (pySorted_sorted r))
    (by rintro p ⟨⟩)).1

theorem mem_union_sorted {l r : List Nat} {z : Nat} :
    z ∈ union_sorted l r ↔ z ∈ l ∨ z ∈ r := by
  rw [union_sorted,
    (uniqAdj_spec _ none (unionMerge_sorted (pySorted_sorted l) (pySorted_sorted r))
      (by rintro p ⟨⟩)).2 z]
  simp [mem_unionMerge, mem_pySorted]

theorem union_sorted_nodup (l r : List Nat) : (union_sorted l r).Nodup :=
  (union_sorted_sorted_lt l r).nodup

/-! ### Lemmas about bisect and the index builder -/

theorem pySortedInt_perm (l : List Int) : (pySortedInt l).Perm l :=
  List.mergeSort_perm l _

theorem pySortedInt_sorted (l : List Int) :
    List.Sorted (· ≤ ·) (pySortedInt l) :=
  List.sorted_mergeSort' l

theorem mem_pySortedInt {l : List Int} {x : Int} : x ∈ pySortedInt l ↔ x ∈ l :=
  (pySortedInt_perm l).mem_iff

theorem sorted_getD_mono {a : List Int} (hs : List.Sorted (· ≤ ·) a)
    {i j : Nat} (hij : i ≤ j) (hj : j < a.length) :
    a.getD i 0 ≤ a.getD j 0 := by
  have hi : i < a.length := lt_of_le_of_lt hij hj
  rw [List.getD_eq_getElem _ _ hi, List.getD_eq_getElem _ _ hj]
  rcases eq_or_lt_of_le hij with rfl | h
  · exact le_refl _
  · exact List.pairwise_iff_getElem.mp hs i j hi hj h

theorem bisectLeftLoop_spec (a : List Int) (x : Int)
    (hs : List.Sorted (· ≤ ·) a) :
    ∀ (fuel lo hi : Nat), lo ≤ hi → hi ≤ a.length → hi - lo < fuel →
      (∀ i, i < lo → a.getD i 0 < x) →
      (∀ i, hi ≤ i → i < a.length → x ≤ a.getD i 0) →
      (∀ i, i < bisectLeftLoop a x fuel lo hi → a.getD i 0 < x) ∧
        (∀ i, bisectLeftLoop a x fuel lo hi ≤ i → i < a.length →
          x ≤ a.getD i 0) ∧
        bisectLeftLoop a x fuel lo hi ≤ a.length
  | 0, lo, hi, hlh, hha, hfuel, _, _ => absurd hfuel (by omega)
  | fuel + 1, lo, hi, hlh, hha, hfuel, hbelow, habove => by
    rw [bisectLeftLoop]
    by_cases h : lo < hi
    · rw [if_pos h]
      have hmid1 : lo ≤ (lo + hi) / 2 := by omega
      have hmid2 : (lo + hi) / 2 < hi := by omega
      by_cases hcmp : a.getD ((lo + hi) / 2) 0 < x
      · rw [if_pos hcmp]
        refine bisectLeftLoop_spec a x hs fuel ((lo + hi) / 2 + 1) hi
          (by omega) hha (by omega) (fun i hi2 => ?_) habove
        have : a.getD i 0 ≤ a.getD ((lo + hi) / 2) 0 :=
          sorted_getD_mono hs (by omega) (by omega)
        omega
      · rw [if_neg hcmp]
        refine bisectLeftLoop_spec a x hs fuel lo ((lo + hi) / 2)
          (by omega) (by omega) (by omega) hbelow (fun i hi1 hi2 => ?_)
        have : a.getD ((lo + hi) / 2) 0 ≤ a.getD i 0 :=
          sorted_getD_mono hs hi1 hi2
        omega
    · rw [if_neg h]
      exact ⟨hbelow, fun i hi1 hi2 => habove i (by omega) hi2, by omega⟩

theorem bisect_left_spec (a : List Int) (x : Int)
    (hs : List.Sorted (· ≤ ·) a) :
    (∀ i, i < bisect_left a x → a.getD i 0 < x) ∧
      (∀ i, bisect_left a x ≤ i → i < a.length → x ≤ a.getD i 0) ∧
      bisect_left a x ≤ a.length :=
  bisectLeftLoop_spec a x hs (a.length + 1) 0 a.length (by omega) le_rfl
    (by omega) (fun i h => absurd h (by omega)) (fun i h1 h2 => absurd h1 (by omega))

theorem bisectRightLoop_spec (a : List Int) (x : Int)
    (hs : List.Sorted (· ≤ ·) a) :
    ∀ (fuel lo hi : Nat), lo ≤ hi → hi ≤ a.length → hi - lo < fuel →
      (∀ i, i < lo → a.getD i 0 ≤ x) →
      (∀ i, hi ≤ i → i < a.length → x < a.getD i 0) →
      (∀ i, i < bisectRightLoop a x fuel lo hi → a.getD i 0 ≤ x) ∧
        (∀ i, bisectRightLoop a x fuel lo hi ≤ i → i < a.length →
          x < a.getD i 0) ∧
        bisectRightLoop a x fuel lo hi ≤ a.length
  | 0, lo, hi, hlh, hha, hfuel, _, _ => absurd hfuel (by omega)
  | fuel + 1, lo, hi, hlh, hha, hfuel, hbelow, habove => by
    rw [bisectRightLoop]
    by_cases h : lo < hi
    · rw [if_pos h]
      have hmid1 : lo ≤ (lo + hi) / 2 := by omega
      have hmid2 : (lo + hi) / 2 < hi := by omega
      by_cases hcmp : x < a.getD ((lo + hi) / 2) 0
      · rw [if_pos hcmp]
        refine bisectRightLoop_spec a x hs fuel lo ((lo + hi) / 2)
          (by omega) (by omega) (by omega) hbelow (fun i hi1 hi2 => ?_)
        have : a.getD ((lo + hi) / 2) 0 ≤ a.getD i 0 :=
          sorted_getD_mono hs hi1 hi2
        omega
      · rw [if_neg hcmp]
        refine bisectRightLoop_spec a x hs fuel ((lo + hi) / 2 + 1) hi
          (by omega) hha (by omega) (fun i hi2 => ?_) habove
        have : a.getD i 0 ≤ a.getD ((lo + hi) / 2) 0 :=
          sorted_getD_mono hs (by omega) (by omega)
        omega
    · rw [if_neg h]
      exact ⟨hbelow, fun i hi1 hi2 => habove i (by omega) hi2, by omega⟩

theorem bisect_right_spec (a : List Int) (x : Int)
    (hs : List.Sorted (· ≤ ·) a) :
    (∀ i, i < bisect_right a x → a.getD i 0 ≤ x) ∧
      (∀ i, bisect_right a x ≤ i → i < a.length → x < a.getD i 0) ∧
      bisect_right a x ≤ a.length :=
  bisectRightLoop_spec a x hs (a.length + 1) 0 a.length (by omega) le_rfl
    (by omega) (fun i h => absurd h (by omega)) (fun i h1 h2 => absurd h1 (by omega))

theorem filter_eq_drop_take (p : Int → Bool) :
    ∀ (a : List Int) (L R : Nat), L ≤ R → R ≤ a.length →
      (∀ i, i < L → p (a.getD i 0) = false) →
      (∀ i, L ≤ i → i < R → p (a.getD i 0) = true) →
      (∀ i, R ≤ i → i < a.length → p (a.getD i 0) = false) →
      a.filter p = (a.drop L).take (R - L)
  | [], L, R, hLR, hR, _, _, _ => by
    have : R = 0 := by simpa using hR
    subst this
    have : L = 0 := by omega
    subst this
    simp
  | x :: xs, 0, 0, _, _, _, _, h3 => by
    have hx : p x = false := h3 0 (by omega) (by simp)
    have : List.filter p (x :: xs) = [] := by
      rw [List.filter_eq_nil_iff]
      intro z hz
      rw [List.mem_iff_getElem] at hz
      obtain ⟨n, hn, rfl⟩ := hz
      have := h3 n (by omega) hn
      rw [List.getD_eq_getElem _ _ hn] at this
      simp [this]
    simp [this]
  | x :: xs, 0, R + 1, _, hR, h1, h2, h3 => by
    have hx : p x = true := by
      have := h2 0 (by omega) (by omega)
      simpa using this
    rw [List.filter_cons_of_pos hx]
    have ih := filter_eq_drop_take p xs 0 R (by omega) (by simpa using hR)
      (fun i h => absurd h (by omega))
      (fun i _ hiR => by simpa using h2 (i + 1) (by omega) (by omega))
      (fun i hiR hilen => by simpa using h3 (i + 1) (by omega) (by simpa using hilen))
    simpa using ih
  | x :: xs, L + 1, R, hLR, hR, h1, h2, h3 => by
    have hx : p x = false := by simpa using h1 0 (by omega)
    rw [List.filter_cons_of_neg (by simp [hx])]
    have hRpos : ∃ R', R = R' + 1 := ⟨R - 1, by omega⟩
    obtain ⟨R', rfl⟩ := hRpos
    have ih := filter_eq_drop_take p xs L R' (by omega) (by simpa using hR)
      (fun i hiL => by simpa using h1 (i + 1) (by omega))
      (fun i hiL hiR => by simpa using h2 (i + 1) (by omega) (by omega))
      (fun i hiR hilen => by simpa using h3 (i + 1) (by omega) (by simpa using hilen))
    rw [ih]
    simp only [List.drop_succ_cons]
    congr 1
    omega

theorem yearSlice_eq_filter {a : List Int} (hs : List.Sorted (· ≤ ·) a)
    (y1 y2 : Int) :
    (a.drop (bisect_left a y1)).take (bisect_right a y2 - bisect_left a y1) =
      a.filter (fun y => decide (y1 ≤ y) && decide (y ≤ y2)) := by
  obtain ⟨L1, L2, L3⟩ := bisect_left_spec a y1 hs
  obtain ⟨R1, R2, R3⟩ := bisect_right_spec a y2 hs
  by_cases hLR : bisect_left a y1 ≤ bisect_right a y2
  · refine (filter_eq_drop_take _ a _ _ hLR R3 (fun i hi => ?_)
      (fun i hi1 hi2 => ?_) (fun i hi1 hi2 => ?_)).symm
    · have := L1 i hi
      simp only [Bool.and_eq_false_iff, decide_eq_false_iff_not]
      left
      omega
    · have h1 := L2 i hi1 (by omega)
      have h2 := R1 i hi2
      simp only [Bool.and_eq_true, decide_eq_true_iff]
      omega
    · have := R2 i hi1 hi2
      simp only [Bool.and_eq_false_iff, decide_eq_false_iff_not]
      right
      omega
  · rw [Nat.sub_eq_zero_of_le (by omega), List.take_zero]
    symm
    rw [List.filter_eq_nil_iff]
    intro z hz
    rw [List.mem_iff_getElem] at hz
    obtain ⟨n, hn, rfl⟩ := hz
    simp only [Bool.and_eq_true, decide_eq_true_iff, not_and]
    intro hy1 hy2
    have hL : bisect_left a y1 ≤ n := by
      by_contra hc
      have := L1 n (by omega)
      rw [List.getD_eq_getElem _ _ hn] at this
      omega
    have hRn : n < bisect_right a y2 := by
      by_contra hc
      have := R2 n (by omega) hn
      rw [List.getD_eq_getElem _ _ hn] at this
      omega
    omega

/-! Dictionary-fold characterisations used to reason about `build_indices`. -/

theorem dictGet_dictAppend {κ : Type} [DecidableEq κ]
    (d : List (κ × List Nat)) (k k' : κ) (v : Nat) :
    dictGet (dictAppend d k v) k' =
      if k = k' then dictGet d k' ++ [v] else dictGet d k' := by
  induction d with
  | nil =>
    by_cases h : k = k'
    · subst h
      simp [dictAppend, dictGet]
    · simp [dictAppend, dictGet, h]
  | cons kv rest ih =>
    obtain ⟨k0, vs⟩ := kv
    by_cases h0 : k0 = k
    · subst h0
      rw [dictAppend, if_pos rfl]
      by_cases h : k0 = k'
      · subst h
        simp [dictGet]
      · simp [dictGet, h]
    · rw [dictAppend, if_neg h0]
      by_cases h : k0 = k'
      · subst h
        have hkk : ¬k = k0 := fun hc => h0 hc.symm
        simp [dictGet, hkk]
      · simp [dictGet, h, ih]

theorem keys_dictAppend {κ : Type} [DecidableEq κ]
    (d : List (κ × List Nat)) (k : κ) (v : Nat) :
    (dictAppend d k v).map Prod.fst =
      if k ∈ d.map Prod.fst then d.map Prod.fst
      else d.map Prod.fst ++ [k] := by
  induction d with
  | nil => simp [dictAppend]
  | cons kv rest ih =>
    obtain ⟨k0, vs⟩ := kv
    by_cases h0 : k0 = k
    · subst h0
      simp [dictAppend]
    · rw [dictAppend, if_neg h0]
      by_cases hmem : k ∈ rest.map Prod.fst
      · rw [List.map_cons, ih, if_pos hmem, List.map_cons]
        rw [if_pos (by simp [hmem])]
      · rw [List.map_cons, ih, if_neg hmem, List.map_cons]
        rw [if_neg (by
          simp only [List.mem_cons]
          rintro (rfl | hc)
          · exact h0 rfl
          · exact hmem hc)]
        simp

theorem mem_keys_iff_dictGet_ne {κ : Type} [DecidableEq κ]
    (d : List (κ × List Nat)) (k : κ) :
    dictGet d k ≠ [] → k ∈ d.map Prod.fst := by
  induction d with
  | nil => simp [dictGet]
  | cons kv rest ih =>
    obtain ⟨k0, vs⟩ := kv
    rw [dictGet]
    by_cases h : k0 = k
    · subst h
      intro _
      simp
    · rw [if_neg h]
      intro hne
      simp only [List.map_cons, List.mem_cons]
      exact Or.inr (ih hne)

theorem dictGet_foldDict {κ : Type} [DecidableEq κ] (kf : DisasterEvent → κ) :
    ∀ (events : List DisasterEvent) (d : List (κ × List Nat)) (k : κ),
      dictGet (foldDict kf events d) k =
        dictGet d k ++
          (events.filter (fun e => decide (kf e = k))).map (·.event_id)
  | [], d, k => by simp [foldDict]
  | e :: rest, d, k => by
    rw [foldDict, List.foldl_cons]
    have ih := dictGet_foldDict kf rest (dictAppend d (kf e) e.event_id) k
    rw [foldDict] at ih
    rw [ih, dictGet_dictAppend]
    by_cases h : kf e = k
    · rw [if_pos h, List.filter_cons_of_pos (by simp [h]), List.map_cons]
      simp
    · rw [if_neg h, List.filter_cons_of_neg (by simp [h])]

theorem keys_mem_foldDict {κ : Type} [DecidableEq κ] (kf : DisasterEvent → κ) :
    ∀ (events : List DisasterEvent) (d : List (κ × List Nat)) (k : κ),
      k ∈ (foldDict kf events d).map Prod.fst ↔
        k ∈ d.map Prod.fst ∨ ∃ e ∈ events, kf e = k
  | [], d, k => by simp [foldDict]
  | e :: rest, d, k => by
    rw [foldDict, List.foldl_cons]
    have ih := keys_mem_foldDict kf rest (dictAppend d (kf e) e.event_id) k
    rw [foldDict] at ih
    rw [ih, keys_dictAppend]
    by_cases h : kf e ∈ d.map Prod.fst
    · rw [if_pos h]
      simp only [List.mem_cons]
      constructor
      · rintro (h1 | ⟨e', he', hk⟩)
        · exact Or.inl h1
        · exact Or.inr ⟨e', Or.inr he', hk⟩
      · rintro (h1 | ⟨e', rfl | he', hk⟩)
        · exact Or.inl h1
        · exact Or.inl (hk ▸ h)
        · exact Or.inr ⟨e', he', hk⟩
    · rw [if_neg h]
      simp only [List.mem_append, List.mem_cons, List.not_mem_nil, or_false,
        List.mem_cons]
      constructor
      · rintro ((h1 | h1) | ⟨e', he', hk⟩)
        · exact Or.inl h1
        · exact Or.inr ⟨e, Or.inl rfl, h1.symm⟩
        · exact Or.inr ⟨e', Or.inr he', hk⟩
      · rintro (h1 | ⟨e', rfl | he', hk⟩)
        · exact Or.inl (Or.inl h1)
        · exact Or.inl (Or.inr hk.symm)
        · exact Or.inr ⟨e', he', hk⟩

theorem keys_nodup_foldDict {κ : Type} [DecidableEq κ]
    (kf : DisasterEvent → κ) :
    ∀ (events : List DisasterEvent) (d : List (κ × List Nat)),
      (d.map Prod.fst).Nodup → ((foldDict kf events d).map Prod.fst).Nodup
  | [], d, h => by simpa [foldDict] using h
  | e :: rest, d, h => by
    rw [foldDict, List.foldl_cons]
    have step : ((dictAppend d (kf e) e.event_id).map Prod.fst).Nodup := by
      rw [keys_dictAppend]
      by_cases hmem : kf e ∈ d.map Prod.fst
      · rwa [if_pos hmem]
      · rw [if_neg hmem]
        refine List.Nodup.append h (List.nodup_singleton _) ?_
        intro a ha hb
        rw [List.mem_singleton] at hb
        subst hb
        exact hmem ha
    have ih := keys_nodup_foldDict kf rest (dictAppend d (kf e) e.event_id) step
    rwa [foldDict] at ih

theorem map_event_id_eq_range {events : List DisasterEvent}
    (hWF : EventsWF events) :
    events.map (·.event_id) = List.range events.length := by
  refine List.ext_getElem (by simp) (fun n h1 h2 => ?_)
  simp only [List.getElem_map, List.getElem_range]
  exact hWF n (by simpa using h1)

theorem filterIds_sublist_range {events : List DisasterEvent}
    (hWF : EventsWF events) (p : DisasterEvent → Bool) :
    List.Sublist ((events.filter p).map (·.event_id))
      (List.range events.length) := by
  rw [← map_event_id_eq_range hWF]
  exact (List.filter_sublist _).map _

theorem filterIds_nodup {events : List DisasterEvent}
    (hWF : EventsWF events) (p : DisasterEvent → Bool) :
    ((events.filter p).map (·.event_id)).Nodup :=
  (filterIds_sublist_range hWF p).nodup (List.nodup_range _)

theorem mem_filterIds {events : List DisasterEvent}
    (hWF : EventsWF events) (p : DisasterEvent → Bool) (i : Nat) :
    i ∈ (events.filter p).map (·.event_id) ↔
      ∃ h : i < events.length, p (events[i]) = true := by
  rw [List.mem_map]
  constructor
  · rintro ⟨e, he, rfl⟩
    rw [List.mem_filter] at he
    obtain ⟨hmem, hp⟩ := he
    rw [List.mem_iff_getElem] at hmem
    obtain ⟨n, hn, rfl⟩ := hmem
    rw [hWF n hn]
    exact ⟨hn, hp⟩
  · rintro ⟨h, hp⟩
    exact ⟨events[i], List.mem_filter.mpr ⟨List.getElem_mem h, hp⟩, hWF i h⟩

theorem foldl_buildStep (events : List DisasterEvent) :
    ∀ acc, events.foldl buildStep acc =
      (foldDict (·.country) events acc.1,
       foldDict (·.disaster_type) events acc.2.1,
       foldDict (·.start_year) events acc.2.2) := by
  induction events with
  | nil => intro acc; simp [foldDict]
  | cons e rest ih =>
    intro acc
    rw [List.foldl_cons, ih]
    rfl

theorem dictGet_map_pySorted {κ : Type} [DecidableEq κ]
    (d : List (κ × List Nat)) (k : κ) :
    dictGet (d.map (fun p => (p.1, pySorted p.2))) k = pySorted (dictGet d k) := by
  induction d with
  | nil => simp [dictGet, pySorted]
  | cons kv rest ih =>
    obtain ⟨k0, vs⟩ := kv
    by_cases h : k0 = k
    · subst h
      simp [dictGet]
    · simp [dictGet, h, ih]

theorem by_country_eq (events : List DisasterEvent) (c : String) :
    dictGet (build_indices events).by_country c =
      pySorted ((events.filter (fun e => decide (e.country = c))).map
        (·.event_id)) := by
  rw [build_indices]
  simp only [foldl_buildStep events ([], [], [])]
  rw [dictGet_map_pySorted, dictGet_foldDict]
  simp [dictGet]

theorem by_type_eq (events : List DisasterEvent) (t : String) :
    dictGet (build_indices events).by_type t =
      pySorted ((events.filter (fun e => decide (e.disaster_type = t))).map
        (·.event_id)) := by
  rw [build_indices]
  simp only [foldl_buildStep events ([], [], [])]
  rw [dictGet_map_pySorted, dictGet_foldDict]
  simp [dictGet]

theorem year_bucket_eq (events : List DisasterEvent) (y : Int) :
    dictGet (build_indices events).year_to_ids y =
      pySorted ((events.filter (fun e => decide (e.start_year = y))).map
        (·.event_id)) := by
  rw [build_indices]
  simp only [foldl_buildStep events ([], [], [])]
  rw [dictGet_map_pySorted, dictGet_foldDict]
  simp [dictGet]

theorem years_sorted_eq (events : List DisasterEvent) :
    (build_indices events).years_sorted =
      pySortedInt ((foldDict (·.start_year) events []).map Prod.fst) := by
  rw [build_indices]
  simp only [foldl_buildStep events ([], [], [])]

theorem years_sorted_sorted (events : List DisasterEvent) :
    List.Sorted (· ≤ ·) (build_indices events).years_sorted := by
  rw [years_sorted_eq]
  exact pySortedInt_sorted _

theorem mem_years_sorted (events : List DisasterEvent) (y : Int) :
    y ∈ (build_indices events).years_sorted ↔
      ∃ e ∈ events, e.start_year = y := by
  rw [years_sorted_eq, mem_pySortedInt, keys_mem_foldDict]
  simp

theorem mem_by_country {events : List DisasterEvent} (hWF : EventsWF events)
    (c : String) (i : Nat) :
    i ∈ dictGet (build_indices events).by_country c ↔
      ∃ h : i < events.length, (events[i]).country = c := by
  rw [by_country_eq, mem_pySorted, mem_filterIds hWF]
  simp

theorem mem_by_type {events : List DisasterEvent} (hWF : EventsWF events)
    (t : String) (i : Nat) :
    i ∈ dictGet (build_indices events).by_type t ↔
      ∃ h : i < events.length, (events[i]).disaster_type = t := by
  rw [by_type_eq, mem_pySorted, mem_filterIds hWF]
  simp

theorem mem_year_bucket {events : List DisasterEvent} (hWF : EventsWF events)
    (y : Int) (i : Nat) :
    i ∈ dictGet (build_indices events).year_to_ids y ↔
      ∃ h : i < events.length, (events[i]).start_year = y := by
  rw [year_bucket_eq, mem_pySorted, mem_filterIds hWF]
  simp

theorem by_country_sorted_lt {events : List DisasterEvent}
    (hWF : EventsWF events) (c : String) :
    List.Sorted (· < ·) (dictGet (build_indices events).by_country c) := by
  rw [by_country_eq]
  exact pySorted_sorted_lt (filterIds_nodup hWF _)

theorem by_type_sorted_lt {events : List DisasterEvent}
    (hWF : EventsWF events) (t : String) :
    List.Sorted (· < ·) (dictGet (build_indices events).by_type t) := by
  rw [by_type_eq]
  exact pySorted_sorted_lt (filterIds_nodup hWF _)

theorem mem_foldl_append {β : Type} (f : β → List Nat) :
    ∀ (l : List β) (init : List Nat) (i : Nat),
      i ∈ l.foldl (fun out y => out ++ f y) init ↔
        i ∈ init ∨ ∃ y ∈ l, i ∈ f y
  | [], init, i => by simp
  | y :: rest, init, i => by
    rw [List.foldl_cons, mem_foldl_append f rest (init ++ f y) i]
    simp only [List.mem_append, List.mem_cons]
    constructor
    · rintro ((h | h) | ⟨y', hy', hi⟩)
      · exact Or.inl h
      · exact Or.inr ⟨y, Or.inl rfl, h⟩
      · exact Or.inr ⟨y', Or.inr hy', hi⟩
    · rintro (h | ⟨y', rfl | hy', hi⟩)
      · exact Or.inl (Or.inl h)
      · exact Or.inl (Or.inr hi)
      · exact Or.inr ⟨y', hy', hi⟩

theorem mem_year_range_ids {events : List DisasterEvent}
    (hWF : EventsWF events) (y1 y2 : Int) (i : Nat) :
    i ∈ year_range_ids (build_indices events) y1 y2 ↔
      ∃ h : i < events.length,
        y1 ≤ (events[i]).start_year ∧ (events[i]).start_year ≤ y2 := by
  rw [year_range_ids, mem_pySorted, mem_foldl_append,
    yearSlice_eq_filter (years_sorted_sorted events)]
  simp only [List.not_mem_nil, false_or, List.mem_filter, Bool.and_eq_true,
    decide_eq_true_iff]
  constructor
  · rintro ⟨y, ⟨hmem, hy1, hy2⟩, hbucket⟩
    rw [mem_year_bucket hWF] at hbucket
    obtain ⟨h, hyear⟩ := hbucket
    exact ⟨h, by rw [hyear]; exact hy1, by rw [hyear]; exact hy2⟩
  · rintro ⟨h, hy1, hy2⟩
    refine ⟨(events[i]).start_year, ⟨?_, hy1, hy2⟩, ?_⟩
    · rw [mem_years_sorted]
      exact ⟨events[i], List.getElem_mem h, rfl⟩
    · rw [mem_year_bucket hWF]
      exact ⟨h, rfl⟩

theorem year_range_ids_sorted (idx : Indices) (y1 y2 : Int) :
    List.Sorted (· ≤ ·) (year_range_ids idx y1 y2) :=
  pySorted_sorted _

/-! ### Invariants of the evaluator -/

theorem intersect_pySorted_inv {cands : List Nat} (ids : List Nat)
    (h : cands.Nodup) :
    List.Sorted (· < ·) (intersect_sorted (pySorted cands) ids) ∧
      ∀ i ∈ intersect_sorted (pySorted cands) ids, i ∈ cands :=
  ⟨List.Pairwise.sublist (intersect_sorted_sublist_left _ _)
      (pySorted_sorted_lt h),
    fun _ hi =>
      mem_pySorted.mp ((intersect_sorted_sublist_left _ _).subset hi)⟩

theorem scanFilter_sublist (events : List DisasterEvent)
    (pred : DisasterEvent → Option Bool) :
    ∀ (ids out : List Nat), scanFilter events pred ids = some out →
      List.Sublist out ids
  | [], out, h => by
    rw [scanFilter] at h
    obtain rfl := Option.some_inj.mp h
    simp
  | eid :: rest, out, h => by
    rw [scanFilter] at h
    cases hp : pred (events.getD eid defaultEvent) with
    | none => rw [hp] at h; exact absurd h (by simp)
    | some b =>
      rw [hp] at h
      cases b with
      | true =>
        simp only [Option.map_eq_some'] at h
        obtain ⟨out', h1, rfl⟩ := h
        exact (scanFilter_sublist events pred rest out' h1).cons₂ eid
      | false =>
        exact (scanFilter_sublist events pred rest out h).cons eid

theorem apply_cmp_inv {events : List DisasterEvent} {idx : Indices}
    {fieldRaw op : String} {val : PyVal} {cands res : List Nat}
    (hnd : cands.Nodup)
    (h : apply_cmp events idx fieldRaw op val cands = some res) :
    List.Sorted (· < ·) res ∧ ∀ i ∈ res, i ∈ cands := by
  rw [apply_cmp] at h
  split at h
  · obtain rfl := Option.some_inj.mp h
    exact intersect_pySorted_inv _ hnd
  · split at h
    · -- year equality branch
      cases hv : pyToInt val with
      | none => rw [hv] at h; exact absurd h (by simp)
      | some v =>
        rw [hv] at h
        obtain rfl := Option.some_inj.mp h
        exact intersect_pySorted_inv _ hnd
    · split at h
      · -- year range branch
        split at h
        · obtain rfl := Option.some_inj.mp h
          exact ⟨by simp, by simp⟩
        · cases hv : pyToInt val with
          | none => rw [hv] at h; exact absurd h (by simp)
          | some v =>
            rw [hv] at h
            simp only at h
            obtain rfl := Option.some_inj.mp h
            exact intersect_pySorted_inv _ hnd
      · -- fallback scan
        cases hp : make_predicate fieldRaw op val with
        | none => rw [hp] at h; exact absurd h (by simp)
        | some pred =>
          rw [hp] at h
          simp only [Option.map_eq_some'] at h
          obtain ⟨out, h1, rfl⟩ := h
          have hsub := scanFilter_sublist events pred cands out h1
          have hnodup : out.Nodup := hsub.nodup hnd
          exact ⟨pySorted_sorted_lt hnodup,
            fun i hi => hsub.subset (mem_pySorted.mp hi)⟩

theorem eval_node_inv (events : List DisasterEvent) (idx : Indices) :
    ∀ (node : Node) (cands res : List Nat), cands.Nodup →
      eval_node events idx node cands = some res →
      List.Sorted (· < ·) res ∧ ∀ i ∈ res, i ∈ cands
  | .and l r, cands, res, hnd, h => by
    rw [eval_node] at h
    cases hl : eval_node events idx l cands with
    | none => rw [hl] at h; exact absurd h (by simp)
    | some left_ids =>
      rw [hl] at h
      have ihl := eval_node_inv events idx l cands left_ids hnd hl
      have ihr := eval_node_inv events idx r left_ids res ihl.1.nodup h
      exact ⟨ihr.1, fun i hi => ihl.2 i (ihr.2 i hi)⟩
  | .or l r, cands, res, hnd, h => by
    rw [eval_node] at h
    cases hl : eval_node events idx l cands with
    | none => rw [hl] at h; exact absurd h (by simp)
    | some left_ids =>
      rw [hl] at h
      cases hr : eval_node events idx r cands with
      | none => rw [hr] at h; exact absurd h (by simp)
      | some right_ids =>
        rw [hr] at h
        obtain rfl := Option.some_inj.mp h
        have ihl := eval_node_inv events idx l cands left_ids hnd hl
        have ihr := eval_node_inv events idx r cands right_ids hnd hr
        refine ⟨union_sorted_sorted_lt _ _, fun i hi => ?_⟩
        rcases mem_union_sorted.mp hi with hm | hm
        · exact ihl.2 i hm
        · exact ihr.2 i hm
  | .cmp f op v, cands, res, hnd, h => apply_cmp_inv hnd h

/-! ### Claim C3: merge-sort stability -/

/-- C3: the claim says merge sort is stable for both directions.  The
descending merge takes the right element first on equal keys (`take_left =
a > b`), so on the two equal-keyed pairs below the original order `(0,1),
(1,1)` comes out reversed — the code contradicts its own "Stable merge
sort" docstring for `reverse=True`, while the ascending direction is
stable on the same input. -/
theorem C3_merge_sort_descending_unstable :
    merge_sort (Prod.snd : Nat × Int → Int) true [(0, 1), (1, 1)] =
        [(1, 1), (0, 1)] ∧
      merge_sort (Prod.snd : Nat × Int → Int) false [(0, 1), (1, 1)] =
        [(0, 1), (1, 1)] := by
  constructor
  · simp [merge_sort, mergeRun]
  · simp [merge_sort, mergeRun]

/-! ### Claim C9: parser precedence, associativity, literals, trailing input -/

/-- C9: `"year >= 2000 and deaths > 1000"` parses to
`And(Cmp(year,>=,2000), Cmp(deaths,>,1000))` with integer literals; AND
binds tighter than OR, both left-associative; parentheses override the
precedence; and when a complete expression is followed by trailing tokens,
`parse` fails with a parse error. -/
theorem C9_parser_grammar :
    parse "year >= 2000 and deaths > 1000" =
        .ok (.and (.cmp "year" ">=" (.int 2000))
          (.cmp "deaths" ">" (.int 1000))) ∧
      parse "a == 1 or b == 2 and c == 3" =
        .ok (.or (.cmp "a" "==" (.int 1))
          (.and (.cmp "b" "==" (.int 2)) (.cmp "c" "==" (.int 3)))) ∧
      parse "a == 1 and b == 2 and c == 3" =
        .ok (.and (.and (.cmp "a" "==" (.int 1)) (.cmp "b" "==" (.int 2)))
          (.cmp "c" "==" (.int 3))) ∧
      parse "a == 1 or b == 2 or c == 3" =
        .ok (.or (.or (.cmp "a" "==" (.int 1)) (.cmp "b" "==" (.int 2)))
          (.cmp "c" "==" (.int 3))) ∧
      parse "(a == 1 or b == 2) and c == 3" =
        .ok (.and (.or (.cmp "a" "==" (.int 1)) (.cmp "b" "==" (.int 2)))
          (.cmp "c" "==" (.int 3))) ∧
      ∀ (expr : String) (toks : List Token) (node : Node) (t : Token)
        (rest : List Token),
        tokenize expr = .ok toks →
        parseExpr (3 * (toks.length + 1) + 3) toks = .ok (node, t :: rest) →
        ∃ msg, parse expr = .error msg := by
  refine ⟨by rfl, by rfl, by rfl, by rfl, by rfl, ?_⟩
  intro expr toks node t rest htok hparse
  refine ⟨String.append "Unexpected token: " t.value, ?_⟩
  simp only [parse, htok, hparse]

/-- Witness for C9: the trailing-input conjunct at the concrete input
`"a == 1 b"`, whose tokens parse to `a == 1` followed by the stray
identifier `b`. -/
theorem C9_parser_grammar_witness :
    ∃ msg, parse "a == 1 b" = .error msg :=
  C9_parser_grammar.2.2.2.2.2 "a == 1 b"
    [⟨"IDENT", "a"⟩, ⟨"OP", "=="⟩, ⟨"NUMBER", "1"⟩, ⟨"IDENT", "b"⟩]
    (.cmp "a" "==" (.int 1)) ⟨"IDENT", "b"⟩ [] (by rfl) (by rfl)

/-! ### Claim C2: parse errors and selection state -/

/-- C2 counterexample: the claim says a malformed `where` leaves the
selection state — current ids and both history stacks — unchanged.  But
`where` pushes history *before* parsing, so on the freshly constructed
engine (empty undo stack) the failed query `"year >="` leaves a snapshot
on the undo stack. -/
theorem C2_counterexample :
    (mkEngine demoEvents (build_indices demoEvents)).undoStack = [] ∧
      (where_op (mkEngine demoEvents (build_indices demoEvents))
          "year >=").2 = false ∧
      (where_op (mkEngine demoEvents (build_indices demoEvents))
          "year >=").1.undoStack = [[0, 1]] := by
  refine ⟨rfl, rfl, rfl⟩

/-- C2 amended: a malformed `where` raises a parse error and leaves the
*current id list* unchanged, but the undo stack receives a snapshot of that
(unchanged) list and the redo stack is cleared, because history is pushed
before parsing. -/
theorem C2_parse_error_effect (e : Engine) (expr msg : String)
    (h : parse expr = .error msg) :
    (where_op e expr).1.active_ids = e.active_ids ∧
      (where_op e expr).2 = false ∧
      (where_op e expr).1.undoStack = e.active_ids :: e.undoStack ∧
      (where_op e expr).1.redoStack = [] := by
  rw [where_op, push_history, h]
  exact ⟨rfl, rfl, rfl, rfl⟩

/-- Witness for C2: the amended statement at the initial demo engine and the
malformed query `"year >="`. -/
theorem C2_parse_error_effect_witness :
    (where_op (mkEngine demoEvents (build_indices demoEvents))
        "year >=").1.active_ids =
        (mkEngine demoEvents (build_indices demoEvents)).active_ids ∧
      (where_op (mkEngine demoEvents (build_indices demoEvents))
          "year >=").2 = false ∧
      (where_op (mkEngine demoEvents (build_indices demoEvents))
          "year >=").1.undoStack =
        (mkEngine demoEvents (build_indices demoEvents)).active_ids ::
          (mkEngine demoEvents (build_indices demoEvents)).undoStack ∧
      (where_op (mkEngine demoEvents (build_indices demoEvents))
          "year >=").1.redoStack = [] :=
  C2_parse_error_effect (mkEngine demoEvents (build_indices demoEvents))
    "year >=" "Expected a value after operator" (by rfl)

/-! ### Claim C8: undo/redo round trips and underflow -/

/-- C8: after any mutating filter operation (`filter_country`,
`filter_type`, `filter_year_range`, `reset`, or a successful `where`),
`undo` restores the previous id list exactly and reports success, and
`redo` immediately afterwards restores the filtered list exactly; `undo`
on an empty undo stack and `redo` on an empty redo stack return `false`
without changing any state. -/
theorem C8_undo_redo_round_trip (e : Engine) (c t : String) (y1 y2 : Int)
    (expr : String) :
    UndoRestores (filter_country e c) e.active_ids ∧
      UndoRestores (filter_type e t) e.active_ids ∧
      UndoRestores (filter_year_range e y1 y2) e.active_ids ∧
      UndoRestores (reset e) e.active_ids ∧
      ((where_op e expr).2 = true →
        UndoRestores (where_op e expr).1 e.active_ids) ∧
      (e.undoStack = [] → undo e = (e, false)) ∧
      (e.redoStack = [] → redo e = (e, false)) := by
  refine ⟨?_, ?_, ?_, ?_, ?_, ?_, ?_⟩
  · exact ⟨rfl, rfl, rfl, rfl⟩
  · exact ⟨rfl, rfl, rfl, rfl⟩
  · exact ⟨rfl, rfl, rfl, rfl⟩
  · exact ⟨rfl, rfl, rfl, rfl⟩
  · intro hok
    rw [where_op] at hok ⊢
    cases hp : parse expr with
    | error msg => simp [hp] at hok
    | ok ast =>
      simp only [hp] at hok ⊢
      cases he : eval_node (push_history e).events (push_history e).idx ast
          (push_history e).active_ids with
      | none => simp [he] at hok
      | some ids =>
        simp only [he] at hok ⊢
        exact ⟨rfl, rfl, rfl, rfl⟩
  · intro h
    rw [undo, h]
  · intro h
    rw [redo, h]

/-- Witness for C8: round trip through `filter_country` on the demo engine,
plus both underflow cases on the freshly built engine (whose stacks are
empty). -/
theorem C8_undo_redo_round_trip_witness :
    UndoRestores
        (filter_country (mkEngine demoEvents (build_indices demoEvents))
          "India")
        (mkEngine demoEvents (build_indices demoEvents)).active_ids ∧
      undo (mkEngine demoEvents (build_indices demoEvents)) =
        (mkEngine demoEvents (build_indices demoEvents), false) ∧
      redo (mkEngine demoEvents (build_indices demoEvents)) =
        (mkEngine demoEvents (build_indices demoEvents), false) := by
  have h := C8_undo_redo_round_trip
    (mkEngine demoEvents (build_indices demoEvents)) "India" "Flood" 2000
    2010 "year >= 2000"
  exact ⟨h.1, h.2.2.2.2.2.1 (by rfl), h.2.2.2.2.2.2 (by rfl)⟩

/-! ### Claim C10: the selection is always a strictly ascending list of
valid indices -/

theorem reachable_inv (events : List DisasterEvent) (e : Engine)
    (h : Reachable events e) :
    e.events = events ∧ GoodIds events e.active_ids ∧
      (∀ l ∈ e.undoStack, GoodIds events l) ∧
      (∀ l ∈ e.redoStack, GoodIds events l) := by
  induction h with
  | init =>
    refine ⟨rfl, ⟨List.pairwise_lt_range _, ?_⟩, by simp [mkEngine],
      by simp [mkEngine]⟩
    intro i hi
    simpa [mkEngine] using List.mem_range.mp hi
  | resetStep hr ih =>
    obtain ⟨hev, hact, hundo, hredo⟩ := ih
    refine ⟨hev, ⟨List.pairwise_lt_range _, ?_⟩, ?_,
      by simp [reset, push_history]⟩
    · intro i hi
      simp only [reset, push_history] at hi
      rw [hev] at hi
      exact List.mem_range.mp hi
    · intro l hl
      simp only [reset, push_history, List.mem_cons] at hl
      rcases hl with rfl | hl
      · exact hact
      · exact hundo l hl
  | filterCountryStep c hr ih =>
    obtain ⟨hev, hact, hundo, hredo⟩ := ih
    refine ⟨hev, ⟨(intersect_pySorted_inv _ hact.1.nodup).1, fun i hi =>
      hact.2 i ((intersect_pySorted_inv _ hact.1.nodup).2 i hi)⟩, ?_,
      by simp [filter_country, push_history]⟩
    intro l hl
    simp only [filter_country, push_history, List.mem_cons] at hl
    rcases hl with rfl | hl
    · exact hact
    · exact hundo l hl
  | filterTypeStep t hr ih =>
    obtain ⟨hev, hact, hundo, hredo⟩ := ih
    refine ⟨hev, ⟨(intersect_pySorted_inv _ hact.1.nodup).1, fun i hi =>
      hact.2 i ((intersect_pySorted_inv _ hact.1.nodup).2 i hi)⟩, ?_,
      by simp [filter_type, push_history]⟩
    intro l hl
    simp only [filter_type, push_history, List.mem_cons] at hl
    rcases hl with rfl | hl
    · exact hact
    · exact hundo l hl
  | filterYearStep y1 y2 hr ih =>
    obtain ⟨hev, hact, hundo, hredo⟩ := ih
    refine ⟨hev, ⟨(intersect_pySorted_inv _ hact.1.nodup).1, fun i hi =>
      hact.2 i ((intersect_pySorted_inv _ hact.1.nodup).2 i hi)⟩, ?_,
      by simp [filter_year_range, push_history]⟩
    intro l hl
    simp only [filter_year_range, push_history, List.mem_cons] at hl
    rcases hl with rfl | hl
    · exact hact
    · exact hundo l hl
  | whereStep expr hr ih =>
    rename_i eng
    obtain ⟨hev, hact, hundo, hredo⟩ := ih
    have hstacks : (∀ l ∈ (push_history eng).undoStack, GoodIds events l) ∧
        ∀ l ∈ (push_history eng).redoStack, GoodIds events l := by
      refine ⟨?_, by simp [push_history]⟩
      intro l hl
      simp only [push_history, List.mem_cons] at hl
      rcases hl with rfl | hl
      · exact hact
      · exact hundo l hl
    rw [where_op]
    split
    · exact ⟨hev, hact, hstacks.1, hstacks.2⟩
    · split
      · exact ⟨hev, hact, hstacks.1, hstacks.2⟩
      · rename_i ids he
        have hinv := eval_node_inv (push_history eng).events
          (push_history eng).idx _ eng.active_ids ids hact.1.nodup he
        exact ⟨hev, ⟨hinv.1, fun i hi => hact.2 i (hinv.2 i hi)⟩,
          hstacks.1, hstacks.2⟩
  | undoStep hr ih =>
    rename_i eng
    obtain ⟨hev, hact, hundo, hredo⟩ := ih
    cases hu : eng.undoStack with
    | nil =>
      simp only [undo, hu]
      exact ⟨hev, hact, by simp, hredo⟩
    | cons top rest =>
      simp only [undo, hu]
      refine ⟨hev, hundo top (by rw [hu]; exact List.mem_cons_self _ _), ?_, ?_⟩
      · intro l hl
        exact hundo l (by rw [hu]; exact List.mem_cons_of_mem _ hl)
      · intro l hl
        rcases List.mem_cons.mp hl with rfl | hl
        · exact hact
        · exact hredo l hl
  | redoStep hr ih =>
    rename_i eng
    obtain ⟨hev, hact, hundo, hredo⟩ := ih
    cases hu : eng.redoStack with
    | nil =>
      simp only [redo, hu]
      exact ⟨hev, hact, hundo, by simp⟩
    | cons top rest =>
      simp only [redo, hu]
      refine ⟨hev, hredo top (by rw [hu]; exact List.mem_cons_self _ _), ?_, ?_⟩
      · intro l hl
        rcases List.mem_cons.mp hl with rfl | hl
        · exact hact
        · exact hundo l hl
      · intro l hl
        exact hredo l (by rw [hu]; exact List.mem_cons_of_mem _ hl)

/-- C10: every engine state reachable from construction through `reset`,
`filter_country`, `filter_type`, `filter_year_range`, `where`, `undo` and
`redo` keeps `active_ids` strictly ascending (hence duplicate-free) and a
subset of the valid indices `0..len(events)-1`. -/
theorem C10_selection_invariant (events : List DisasterEvent) (e : Engine)
    (h : Reachable events e) :
    List.Sorted (· < ·) e.active_ids ∧
      ∀ i ∈ e.active_ids, i < events.length :=
  ⟨(reachable_inv events e h).2.1.1, (reachable_inv events e h).2.1.2⟩

/-- Witness for C10: the invariant at the freshly constructed demo engine. -/
theorem C10_selection_invariant_witness :
    List.Sorted (· < ·)
        (mkEngine demoEvents (build_indices demoEvents)).active_ids ∧
      ∀ i ∈ (mkEngine demoEvents (build_indices demoEvents)).active_ids,
        i < demoEvents.length :=
  C10_selection_invariant demoEvents _ Reachable.init

/-! ### Claim C4: unknown fields in the fallback evaluator -/

theorem pyLe_none_right (v : PyVal) : pyLe v .none_ = none := by
  cases v <;> rfl

theorem pyLe_none_left (v : PyVal) : pyLe .none_ v = none := by
  cases v <;> rfl

theorem pyLt_none_right (v : PyVal) : pyLt v .none_ = none := by
  cases v <;> rfl

theorem pyLt_none_left (v : PyVal) : pyLt .none_ v = none := by
  cases v <;> rfl

theorem scanFilter_isSome (events : List DisasterEvent)
    (pred : DisasterEvent → Option Bool) (hp : ∀ e, (pred e).isSome) :
    ∀ ids, ∃ out, scanFilter events pred ids = some out
  | [] => ⟨[], rfl⟩
  | eid :: rest => by
    obtain ⟨out, hout⟩ := scanFilter_isSome events pred hp rest
    rw [scanFilter]
    cases hpe : pred (events.getD eid defaultEvent) with
    | none => exact absurd (hp (events.getD eid defaultEvent)) (by rw [hpe]; simp)
    | some b =>
      cases b with
      | true => exact ⟨eid :: out, by rw [hout]; rfl⟩
      | false => exact ⟨out, hout⟩

/-- C4 counterexample: the claim says comparisons on unknown fields never
fail for any of the seven operators, but Python raises `TypeError` on
`None >= 5`, so `where "foo >= 5"` aborts as soon as one candidate record
is evaluated. -/
theorem C4_counterexample :
    apply_cmp demoEvents (build_indices demoEvents) "foo" ">=" (.int 5)
      [0] = none := by
  rfl

theorem scanFilter_cons_none (events : List DisasterEvent)
    (pred : DisasterEvent → Option Bool) (eid : Nat) (rest : List Nat)
    (h : pred (events.getD eid defaultEvent) = none) :
    scanFilter events pred (eid :: rest) = none := by
  rw [scanFilter, h]

/-- C4 amended: when the generic attribute lookup yields the absent value
(`None`) for a field, `==`, `!=` and `contains` comparisons never fail and
return a result list, but the four ordering operators raise a `TypeError`
as soon as at least one candidate record is evaluated. -/
theorem C4_unknown_field_cmp (events : List DisasterEvent) (idx : Indices)
    (f : String) (val : PyVal) (cands : List Nat)
    (habs : ∀ e, predGet f e = PyVal.none_) :
    (∀ op, op = "==" ∨ op = "!=" ∨ op = "contains" →
      ∃ res, apply_cmp events idx f op val cands = some res) ∧
    (∀ op, op = ">=" ∨ op = "<=" ∨ op = ">" ∨ op = "<" → cands ≠ [] →
      apply_cmp events idx f op val cands = none) := by
  have hne : pyLower f ≠ "country" ∧ pyLower f ≠ "disaster_type" ∧
      pyLower f ≠ "start_year" ∧ pyLower f ≠ "year" := by
    have h0 := habs defaultEvent
    rw [predGet] at h0
    refine ⟨fun hc => ?_, fun hc => ?_, fun hc => ?_, fun hc => ?_⟩ <;>
      simp [hc] at h0
  have hroute : ∀ op, apply_cmp events idx f op val cands =
      match make_predicate f op val with
      | none => none
      | some pred => (scanFilter events pred cands).map pySorted := by
    intro op
    rw [apply_cmp]
    rw [if_neg (by rintro ⟨h1, h2 | h2⟩ <;> [exact hne.1 h2; exact hne.2.1 h2])]
    rw [if_neg (by rintro ⟨h1 | h1, h2⟩ <;>
      [exact hne.2.2.1 h1; exact hne.2.2.2 h1])]
    rw [if_neg (by rintro ⟨h1 | h1, h2⟩ <;>
      [exact hne.2.2.1 h1; exact hne.2.2.2 h1])]
  constructor
  · intro op hop
    rcases hop with rfl | rfl | rfl
    · obtain ⟨out, hout⟩ := scanFilter_isSome events
        (fun e => some (pyEq (predGet f e) val)) (fun e => rfl) cands
      refine ⟨pySorted out, ?_⟩
      rw [hroute "=="]
      change (scanFilter events
        (fun e => some (pyEq (predGet f e) val)) cands).map pySorted =
        some (pySorted out)
      rw [hout]
      rfl
    · obtain ⟨out, hout⟩ := scanFilter_isSome events
        (fun e => some (!pyEq (predGet f e) val)) (fun e => rfl) cands
      refine ⟨pySorted out, ?_⟩
      rw [hroute "!="]
      change (scanFilter events
        (fun e => some (!pyEq (predGet f e) val)) cands).map pySorted =
        some (pySorted out)
      rw [hout]
      rfl
    · obtain ⟨out, hout⟩ := scanFilter_isSome events
        (fun e => some (strContains (pyLower (pyStr (predGet f e)))
          (pyLower (pyStr val)))) (fun e => rfl) cands
      refine ⟨pySorted out, ?_⟩
      rw [hroute "contains"]
      change (scanFilter events
        (fun e => some (strContains (pyLower (pyStr (predGet f e)))
          (pyLower (pyStr val)))) cands).map pySorted = some (pySorted out)
      rw [hout]
      rfl
  · intro op hop hcands
    obtain ⟨c, rest, rfl⟩ : ∃ c rest, cands = c :: rest := by
      cases cands with
      | nil => exact absurd rfl hcands
      | cons c rest => exact ⟨c, rest, rfl⟩
    rcases hop with rfl | rfl | rfl | rfl
    · rw [hroute ">="]
      change (scanFilter events (fun e => pyGe (predGet f e) val)
        (c :: rest)).map pySorted = none
      rw [scanFilter_cons_none]
      · rfl
      · show pyGe (predGet f (events.getD c defaultEvent)) val = none
        rw [habs, pyGe, pyLe_none_right]
    · rw [hroute "<="]
      change (scanFilter events (fun e => pyLe (predGet f e) val)
        (c :: rest)).map pySorted = none
      rw [scanFilter_cons_none]
      · rfl
      · show pyLe (predGet f (events.getD c defaultEvent)) val = none
        rw [habs, pyLe_none_left]
    · rw [hroute ">"]
      change (scanFilter events (fun e => pyGt (predGet f e) val)
        (c :: rest)).map pySorted = none
      rw [scanFilter_cons_none]
      · rfl
      · show pyGt (predGet f (events.getD c defaultEvent)) val = none
        rw [habs, pyGt, pyLt_none_right]
    · rw [hroute "<"]
      change (scanFilter events (fun e => pyLt (predGet f e) val)
        (c :: rest)).map pySorted = none
      rw [scanFilter_cons_none]
      · rfl
      · show pyLt (predGet f (events.getD c defaultEvent)) val = none
        rw [habs, pyLt_none_left]

/-- Witness for C4: the unknown field `"foo"` on the demo dataset — `==`
returns a (empty) result list, while `<=` raises. -/
theorem C4_unknown_field_cmp_witness :
    (∃ res, apply_cmp demoEvents (build_indices demoEvents) "foo" "=="
      (.int 5) [0, 1] = some res) ∧
      apply_cmp demoEvents (build_indices demoEvents) "foo" "<="
        (.str "x") [0] = none := by
  have h1 := C4_unknown_field_cmp demoEvents (build_indices demoEvents)
    "foo" (.int 5) [0, 1] (fun e => rfl)
  have h2 := C4_unknown_field_cmp demoEvents (build_indices demoEvents)
    "foo" (.str "x") [0] (fun e => rfl)
  exact ⟨h1.1 "==" (Or.inl rfl), h2.2 "<=" (Or.inr (Or.inl rfl)) (by simp)⟩

/-! ### Claim C5: evaluator contract -/

/-- C5 counterexample: the claim says evaluation always returns a list, but
a comparison that raises (unknown field under an ordering operator, see C4)
aborts the whole evaluation, so no list is returned. -/
theorem C5_counterexample :
    eval_node demoEvents (build_indices demoEvents)
      (.cmp "foo" ">=" (.int 5)) [0] = none := by
  rfl

/-- C5 amended: an AND node evaluates its left child against the
candidates and its right child against the left result; an OR node
evaluates both children against the original candidates and unions the
results; and whenever evaluation completes without error on duplicate-free
candidates, the result is a sorted, duplicate-free subset of the
candidates. -/
theorem C5_eval_node_contract (events : List DisasterEvent) (idx : Indices) :
    (∀ (l r : Node) (cands : List Nat),
      eval_node events idx (.and l r) cands =
        match eval_node events idx l cands with
        | none => none
        | some left_ids => eval_node events idx r left_ids) ∧
      (∀ (l r : Node) (cands : List Nat),
        eval_node events idx (.or l r) cands =
          match eval_node events idx l cands with
          | none => none
          | some left_ids =>
            match eval_node events idx r cands with
            | none => none
            | some right_ids => some (union_sorted left_ids right_ids)) ∧
      (∀ (node : Node) (cands res : List Nat), cands.Nodup →
        eval_node events idx node cands = some res →
        List.Sorted (· < ·) res ∧ res.Nodup ∧ ∀ i ∈ res, i ∈ cands) := by
  refine ⟨fun l r cands => rfl, fun l r cands => rfl, ?_⟩
  intro node cands res hnd h
  obtain ⟨hsorted, hsub⟩ := eval_node_inv events idx node cands res hnd h
  exact ⟨hsorted, hsorted.nodup, hsub⟩

/-- Witness for C5: a fallback equality comparison on the demo dataset
returns the empty selection, which is sorted, duplicate-free and a subset
of the candidates. -/
theorem C5_eval_node_contract_witness :
    eval_node demoEvents (build_indices demoEvents)
        (.cmp "zzz" "==" (.str "x")) [0] = some [] ∧
      List.Sorted (· < ·) ([] : List Nat) ∧ ([] : List Nat).Nodup ∧
        ∀ i ∈ ([] : List Nat), i ∈ [0] := by
  have heval : eval_node demoEvents (build_indices demoEvents)
      (.cmp "zzz" "==" (.str "x")) [0] = some (pySorted []) := rfl
  have hnil : pySorted [] = [] := by simp [pySorted]
  rw [hnil] at heval
  exact ⟨heval,
    (C5_eval_node_contract demoEvents (build_indices demoEvents)).2.2
      _ [0] [] (by decide) heval⟩

/-! ### Claim C6: indexed year-range comparisons -/

theorem demoEvents_wf : EventsWF demoEvents := by
  intro i h
  simp only [demoEvents, List.length_cons, List.length_nil] at h
  interval_cases i <;> rfl

theorem sorted_le_getLastD :
    ∀ (l : List Int) (d : Int), List.Sorted (· ≤ ·) l →
      ∀ y ∈ l, y ≤ l.getLastD d
  | [], _, _, y, hy => absurd hy (by simp)
  | x :: xs, d, hs, y, hy => by
    rw [List.sorted_cons] at hs
    rw [List.getLastD_cons]
    rcases List.mem_cons.mp hy with rfl | hy
    · cases xs with
      | nil => simp
      | cons x' rest =>
        have hmem : (x' :: rest).getLastD y ∈ x' :: rest := by
          rw [List.getLastD_eq_getLast?, List.getLast?_eq_getLast _ (by simp)]
          · exact List.getLast_mem _
        exact hs.1 _ hmem
    · exact sorted_le_getLastD xs x hs.2 y hy

/-- C6: for an ordering comparison on `start_year`/`year` with an integer
value `v`, `_apply_cmp` computes the inclusive window `[lo, hi]` (`lo = v`
for `>=`, `v+1` for `>`; `hi = v` for `<=`, `v-1` for `<`; the open end
taken from the minimum/maximum indexed year), gathers exactly the ids whose
`start_year` lies in the window via `year_range_ids`, and intersects with
the candidates; with no indexed years at all the result is the empty
list. -/
theorem C6_year_range_comparison (events : List DisasterEvent)
    (field op : String) (v : Int) (cands : List Nat) (hWF : EventsWF events)
    (hfield : field = "start_year" ∨ field = "year")
    (hop : op = ">=" ∨ op = ">" ∨ op = "<=" ∨ op = "<") :
    ((build_indices events).years_sorted = [] →
      apply_cmp events (build_indices events) field op (.int v) cands =
        some []) ∧
      ((build_indices events).years_sorted ≠ [] →
        ∃ res,
          apply_cmp events (build_indices events) field op (.int v) cands =
            some res ∧
          res = intersect_sorted (pySorted cands)
            (year_range_ids (build_indices events)
              (yearLoBound (build_indices events) op v)
              (yearHiBound (build_indices events) op v)) ∧
          (∀ y ∈ (build_indices events).years_sorted,
            (build_indices events).years_sorted.headD 0 ≤ y ∧
              y ≤ (build_indices events).years_sorted.getLastD 0) ∧
          (∀ i, i ∈ res ↔ i ∈ cands ∧ ∃ h : i < events.length,
            yearLoBound (build_indices events) op v ≤
                (events[i]).start_year ∧
              (events[i]).start_year ≤
                yearHiBound (build_indices events) op v)) := by
  have hopne : op ≠ "==" := by rcases hop with rfl | rfl | rfl | rfl <;> decide
  have hfl : pyLower field = "start_year" ∨ pyLower field = "year" := by
    rcases hfield with rfl | rfl
    · exact Or.inl rfl
    · exact Or.inr rfl
  have hroute : apply_cmp events (build_indices events) field op (.int v)
      cands =
      match (build_indices events).years_sorted with
      | [] => some []
      | y0 :: ys =>
        some (intersect_sorted (pySorted cands)
          (year_range_ids (build_indices events)
            (if op = ">=" then v else if op = ">" then v + 1 else y0)
            (if op = "<=" then v else if op = "<" then v - 1
             else ys.getLastD y0))) := by
    rw [apply_cmp]
    rw [if_neg (fun hcon => hopne hcon.1)]
    rw [if_neg (fun hcon => hopne hcon.2)]
    rw [if_pos ⟨hfl, hop⟩]
    cases (build_indices events).years_sorted with
    | nil => rfl
    | cons y0 ys => rfl
  constructor
  · intro hnil
    rw [hroute, hnil]
  · intro hne
    cases hys : (build_indices events).years_sorted with
    | nil => exact absurd hys hne
    | cons y0 ys =>
      have hlo : (if op = ">=" then v else if op = ">" then v + 1 else y0) =
          yearLoBound (build_indices events) op v := by
        rw [yearLoBound, hys]
        rfl
      have hhi : (if op = "<=" then v else if op = "<" then v - 1
          else ys.getLastD y0) = yearHiBound (build_indices events) op v := by
        rw [yearHiBound, hys, List.getLastD_cons]
      rw [hroute, hys]
      refine ⟨_, rfl, ?_, ?_, ?_⟩
      · rw [hlo, hhi]
      · intro y hy
        have hsorted := years_sorted_sorted events
        rw [hys] at hsorted
        constructor
        · rw [List.sorted_cons] at hsorted
          rcases List.mem_cons.mp hy with rfl | hmem
          · simp
          · simpa using hsorted.1 _ hmem
        · exact sorted_le_getLastD _ 0 hsorted y hy
      · intro i
        rw [hlo, hhi, mem_intersect_sorted (pySorted_sorted _)
          (year_range_ids_sorted _ _ _), mem_pySorted,
          mem_year_range_ids hWF]

/-- Witness for C6: `year >= 2001` on the demo dataset (indexed years 2000
and 2005). -/
theorem C6_year_range_comparison_witness :
    ∃ res, apply_cmp demoEvents (build_indices demoEvents) "year" ">="
        (.int 2001) [0, 1] = some res ∧
      res = intersect_sorted (pySorted [0, 1])
        (year_range_ids (build_indices demoEvents)
          (yearLoBound (build_indices demoEvents) ">=" 2001)
          (yearHiBound (build_indices demoEvents) ">=" 2001)) ∧
      (∀ y ∈ (build_indices demoEvents).years_sorted,
        (build_indices demoEvents).years_sorted.headD 0 ≤ y ∧
          y ≤ (build_indices demoEvents).years_sorted.getLastD 0) ∧
      (∀ i, i ∈ res ↔ i ∈ [0, 1] ∧ ∃ h : i < demoEvents.length,
        yearLoBound (build_indices demoEvents) ">=" 2001 ≤
            (demoEvents[i]).start_year ∧
          (demoEvents[i]).start_year ≤
            yearHiBound (build_indices demoEvents) ">=" 2001) :=
  (C6_year_range_comparison demoEvents "year" ">=" 2001 [0, 1] demoEvents_wf
    (Or.inr rfl) (Or.inl rfl)).2
    (List.ne_nil_of_mem ((mem_years_sorted demoEvents 2000).mpr
      ⟨evA, by simp [demoEvents], rfl⟩))

/-! ### Claim C7: indexed and linear-scan paths agree -/

theorem sorted_lt_eq_of_mem_iff {a b : List Nat}
    (ha : List.Sorted (· < ·) a) (hb : List.Sorted (· < ·) b)
    (h : ∀ x, x ∈ a ↔ x ∈ b) : a = b :=
  List.eq_of_perm_of_sorted
    ((List.perm_ext_iff_of_nodup ha.nodup hb.nodup).mpr h)
    (ha.imp fun hx => le_of_lt hx) (hb.imp fun hx => le_of_lt hx)

theorem benchNaive_eq_filter (events : List DisasterEvent)
    (country dtype : String) (y1 y2 : Int) :
    benchNaive events country dtype y1 y2 =
      (events.filter (fun e => decide (e.country = country ∧
        e.disaster_type = dtype ∧ y1 ≤ e.start_year ∧
        e.start_year ≤ y2))).map (·.event_id) := by
  have haux : ∀ (l : List DisasterEvent) (init : List Nat),
      l.foldl (fun ids e =>
        if e.country = country ∧ e.disaster_type = dtype ∧
            y1 ≤ e.start_year ∧ e.start_year ≤ y2 then
          ids ++ [e.event_id]
        else ids) init =
      init ++ (l.filter (fun e => decide (e.country = country ∧
        e.disaster_type = dtype ∧ y1 ≤ e.start_year ∧
        e.start_year ≤ y2))).map (·.event_id) := by
    intro l
    induction l with
    | nil => intro init; simp
    | cons e rest ih =>
      intro init
      rw [List.foldl_cons]
      by_cases hc : e.country = country ∧ e.disaster_type = dtype ∧
          y1 ≤ e.start_year ∧ e.start_year ≤ y2
      · rw [if_pos hc, ih, List.filter_cons_of_pos (by simpa using hc)]
        simp
      · rw [if_neg hc, ih, List.filter_cons_of_neg (by simpa using hc)]
  rw [benchNaive, haux]
  rfl

/-- C7: the indexed filter path and the linear-scan path agree — a
`country == X` comparison through the index equals the explicit linear scan
of the (sorted) candidates, and the benchmark's indexed three-way
intersection equals its naive full scan. -/
theorem C7_filter_equivalence (events : List DisasterEvent)
    (hWF : EventsWF events) (X : String) (cands : List Nat)
    (hnd : cands.Nodup) (hvalid : ∀ i ∈ cands, i < events.length)
    (country dtype : String) (y1 y2 : Int) :
    apply_cmp events (build_indices events) "country" "==" (.str X) cands =
        some ((pySorted cands).filter
          (fun i => decide ((events.getD i defaultEvent).country = X))) ∧
      benchIndexed (build_indices events) country dtype y1 y2 =
        benchNaive events country dtype y1 y2 := by
  constructor
  · have hroute : apply_cmp events (build_indices events) "country" "=="
        (.str X) cands =
        some (intersect_sorted (pySorted cands)
          (dictGet (build_indices events).by_country X)) := rfl
    rw [hroute]
    congr 1
    refine sorted_lt_eq_of_mem_iff
      (List.Pairwise.sublist (intersect_sorted_sublist_left _ _)
        (pySorted_sorted_lt hnd))
      (List.Pairwise.sublist (List.filter_sublist _)
        (pySorted_sorted_lt hnd)) (fun z => ?_)
    rw [mem_intersect_sorted (pySorted_sorted _)
      ((by_country_sorted_lt hWF X).imp fun hx => le_of_lt hx),
      List.mem_filter, mem_by_country hWF]
    constructor
    · rintro ⟨hz, h, hc⟩
      refine ⟨hz, ?_⟩
      rw [List.getD_eq_getElem _ _ h, hc]
      simp
    · rintro ⟨hz, hc⟩
      have hlen : z < events.length := hvalid z (mem_pySorted.mp hz)
      refine ⟨hz, hlen, ?_⟩
      rw [List.getD_eq_getElem _ _ hlen] at hc
      simpa using hc
  · rw [benchNaive_eq_filter]
    refine sorted_lt_eq_of_mem_iff
      (List.Pairwise.sublist
        (intersect_sorted_sublist_left _ _)
        (List.Pairwise.sublist (intersect_sorted_sublist_left _ _)
          (by_country_sorted_lt hWF country)))
      (List.Pairwise.sublist (filterIds_sublist_range hWF _)
        (List.pairwise_lt_range _)) (fun z => ?_)
    rw [benchIndexed,
      mem_intersect_sorted
        ((List.Pairwise.sublist (intersect_sorted_sublist_left _ _)
          (by_country_sorted_lt hWF country)).imp fun hx => le_of_lt hx)
        (year_range_ids_sorted _ _ _),
      mem_intersect_sorted
        ((by_country_sorted_lt hWF country).imp fun hx => le_of_lt hx)
        ((by_type_sorted_lt hWF dtype).imp fun hx => le_of_lt hx),
      mem_by_country hWF, mem_by_type hWF, mem_year_range_ids hWF,
      mem_filterIds hWF]
    constructor
    · rintro ⟨⟨⟨h1, hc⟩, ⟨h2, ht⟩⟩, ⟨h3, hy⟩⟩
      exact ⟨h1, by simp [hc, ht, hy.1, hy.2]⟩
    · rintro ⟨h, hp⟩
      simp only [decide_eq_true_iff] at hp
      exact ⟨⟨⟨h, hp.1⟩, ⟨h, hp.2.1⟩⟩, ⟨h, hp.2.2⟩⟩

/-- Witness for C7: the equivalence at the demo dataset, country `"India"`,
type `"Flood"`, and the year range 1999–2010. -/
theorem C7_filter_equivalence_witness :
    apply_cmp demoEvents (build_indices demoEvents) "country" "=="
        (.str "India") [0, 1] =
        some ((pySorted [0, 1]).filter
          (fun i => decide ((demoEvents.getD i defaultEvent).country =
            "India"))) ∧
      benchIndexed (build_indices demoEvents) "India" "Flood" 1999 2010 =
        benchNaive demoEvents "India" "Flood" 1999 2010 :=
  C7_filter_equivalence demoEvents demoEvents_wf "India" [0, 1] (by decide)
    (by decide) "India" "Flood" 1999 2010

/-! ### Claim C1: top-k -/

theorem pairLE_trans {a b c : Int × Nat} (h1 : pairLE a b) (h2 : pairLE b c) :
    pairLE a c := by
  unfold pairLE at *
  rcases h1 with h1 | ⟨h1, h1'⟩ <;> rcases h2 with h2 | ⟨h2, h2'⟩ <;>
    [left; left; left; right] <;> omega

theorem pairLE_total (a b : Int × Nat) : pairLE a b ∨ pairLE b a := by
  unfold pairLE
  rcases lt_trichotomy a.1 b.1 with h | h | h
  · exact Or.inl (Or.inl h)
  · rcases Nat.le_total a.2 b.2 with h2 | h2
    · exact Or.inl (Or.inr ⟨h, h2⟩)
    · exact Or.inr (Or.inr ⟨h.symm, h2⟩)
  · exact Or.inr (Or.inl h)

theorem pairLE_fst_le {a b : Int × Nat} (h : pairLE a b) : a.1 ≤ b.1 := by
  unfold pairLE at h
  rcases h with h | ⟨h, _⟩ <;> omega

theorem heapInsert_perm (x : Int × Nat) :
    ∀ h : List (Int × Nat), (heapInsert x h).Perm (x :: h)
  | [] => by simp [heapInsert]
  | y :: ys => by
    rw [heapInsert]
    by_cases hxy : pairLE x y
    · rw [if_pos hxy]
    · rw [if_neg hxy]
      exact ((heapInsert_perm x ys).cons y).trans (List.Perm.swap x y ys)

theorem mem_heapInsert {x z : Int × Nat} {h : List (Int × Nat)} :
    z ∈ heapInsert x h ↔ z = x ∨ z ∈ h := by
  rw [(heapInsert_perm x h).mem_iff, List.mem_cons]

theorem heapInsert_length (x : Int × Nat) (h : List (Int × Nat)) :
    (heapInsert x h).length = h.length + 1 := by
  rw [(heapInsert_perm x h).length_eq, List.length_cons]

theorem heapInsert_sorted {x : Int × Nat} :
    ∀ {h : List (Int × Nat)}, List.Sorted pairLE h →
      List.Sorted pairLE (heapInsert x h)
  | [], _ => by simp [heapInsert]
  | y :: ys, hs => by
    rw [List.sorted_cons] at hs
    rw [heapInsert]
    by_cases hxy : pairLE x y
    · rw [if_pos hxy, List.sorted_cons]
      refine ⟨fun z hz => ?_, List.sorted_cons.mpr hs⟩
      rcases List.mem_cons.mp hz with rfl | hz
      · exact hxy
      · exact pairLE_trans hxy (hs.1 _ hz)
    · rw [if_neg hxy, List.sorted_cons]
      have hyx : pairLE y x := (pairLE_total x y).resolve_left hxy
      refine ⟨fun z hz => ?_, heapInsert_sorted hs.2⟩
      rcases mem_heapInsert.mp hz with rfl | hz
      · exact hyx
      · exact hs.1 _ hz

theorem field_key_total {field : String} {key : DisasterEvent → Option Int}
    (h : field_key field = some key) : ∀ e, (key e).isSome := by
  intro e
  rw [field_key] at h
  split at h
  · obtain rfl := Option.some_inj.mp h
    rfl
  · split at h
    · obtain rfl := Option.some_inj.mp h
      rfl
    · split at h
      · obtain rfl := Option.some_inj.mp h
        rfl
      · split at h
        · obtain rfl := Option.some_inj.mp h
          rfl
        · split at h
          · obtain rfl := Option.some_inj.mp h
            rfl
          · exact absurd h (by simp)

theorem topkStep_push {k : Nat} {key : DisasterEvent → Option Int}
    {events : List DisasterEvent} {heap : List (Int × Nat)} {eid : Nat}
    {v : Int} (hv : key (events.getD eid defaultEvent) = some v)
    (h : heap.length < k) :
    topkStep k key events (some heap) eid =
      some (heapInsert (v, eid) heap) := by
  rw [topkStep, hv]
  exact if_pos h

theorem topkStep_replace {k : Nat} {key : DisasterEvent → Option Int}
    {events : List DisasterEvent} {v0 : Int} {i0 : Nat}
    {heapRest : List (Int × Nat)} {eid : Nat} {v : Int}
    (hv : key (events.getD eid defaultEvent) = some v)
    (h : ¬((v0, i0) :: heapRest).length < k) (hcmp : v0 < v) :
    topkStep k key events (some ((v0, i0) :: heapRest)) eid =
      some (heapInsert (v, eid) heapRest) := by
  rw [topkStep, hv]
  exact (if_neg h).trans (if_pos hcmp)

theorem topkStep_keep {k : Nat} {key : DisasterEvent → Option Int}
    {events : List DisasterEvent} {v0 : Int} {i0 : Nat}
    {heapRest : List (Int × Nat)} {eid : Nat} {v : Int}
    (hv : key (events.getD eid defaultEvent) = some v)
    (h : ¬((v0, i0) :: heapRest).length < k) (hcmp : ¬v0 < v) :
    topkStep k key events (some ((v0, i0) :: heapRest)) eid =
      some ((v0, i0) :: heapRest) := by
  rw [topkStep, hv]
  exact (if_neg h).trans (if_neg hcmp)

theorem topk_fold_spec (k : Nat) (key : DisasterEvent → Option Int)
    (events : List DisasterEvent) (hkey : ∀ e, (key e).isSome)
    (hk : 1 ≤ k) :
    ∀ (ids processed : List Nat) (heap : List (Int × Nat)),
      (processed ++ ids).Nodup →
      List.Sorted pairLE heap →
      heap.length = min k processed.length →
      (∀ p ∈ heap, p.2 ∈ processed ∧
        key (events.getD p.2 defaultEvent) = some p.1) →
      ((heap.map Prod.snd).Nodup) →
      (∀ i ∈ processed, (∃ p ∈ heap, p.2 = i) ∨
        ∀ p ∈ heap, keyAt key events i ≤ p.1) →
      ∃ heap', ids.foldl (topkStep k key events) (some heap) = some heap' ∧
        List.Sorted pairLE heap' ∧
        heap'.length = min k (processed.length + ids.length) ∧
        (∀ p ∈ heap', p.2 ∈ processed ++ ids ∧
          key (events.getD p.2 defaultEvent) = some p.1) ∧
        ((heap'.map Prod.snd).Nodup) ∧
        (∀ i ∈ processed ++ ids, (∃ p ∈ heap', p.2 = i) ∨
          ∀ p ∈ heap', keyAt key events i ≤ p.1)
  | [], processed, heap, hnd, hs, hlen, hmem, hsnd, hdom => by
    refine ⟨heap, rfl, hs, by simpa using hlen, ?_, hsnd, ?_⟩
    · intro p hp
      exact ⟨by simpa using (hmem p hp).1, (hmem p hp).2⟩
    · intro i hi
      exact hdom i (by simpa using hi)
  | i :: rest, processed, heap, hnd, hs, hlen, hmem, hsnd, hdom => by
    obtain ⟨v, hv⟩ : ∃ v, key (events.getD i defaultEvent) = some v :=
      Option.isSome_iff_exists.mp (hkey _)
    have hinotp : i ∉ processed := by
      intro hc
      exact (List.nodup_append.mp hnd).2.2 hc (List.mem_cons_self _ _)
    have hassoc : processed ++ i :: rest = (processed ++ [i]) ++ rest := by
      simp
    have hnd' : ((processed ++ [i]) ++ rest).Nodup := by
      rw [← hassoc]
      exact hnd
    rw [List.foldl_cons]
    by_cases hfull : heap.length < k
    · -- push branch: the heap is below capacity, so everything processed so
      -- far is already in the heap
      have hpl : heap.length = processed.length := by omega
      have hall : ∀ j ∈ processed, ∃ p ∈ heap, p.2 = j := by
        have hsubset : ∀ s ∈ heap.map Prod.snd, s ∈ processed := by
          rintro s hs'
          obtain ⟨p, hp, rfl⟩ := List.mem_map.mp hs'
          exact (hmem p hp).1
        have hlen2 : processed.length ≤ (heap.map Prod.snd).length := by
          rw [List.length_map, hpl]
        have hperm : (heap.map Prod.snd).Perm processed :=
          (List.Nodup.subperm hsnd hsubset).perm_of_length_le hlen2
        intro j hj
        obtain ⟨p, hp, hpj⟩ := List.mem_map.mp (hperm.mem_iff.mpr hj)
        exact ⟨p, hp, hpj⟩
      rw [topkStep_push hv hfull, hassoc]
      obtain ⟨heap', h1, h2, h3, h4, h5, h6⟩ :=
        topk_fold_spec k key events hkey hk rest (processed ++ [i])
          (heapInsert (v, i) heap) hnd' (heapInsert_sorted hs)
          (by
            rw [heapInsert_length, hpl]
            simp only [List.length_append, List.length_cons, List.length_nil]
            omega)
          (by
            intro p hp
            rcases mem_heapInsert.mp hp with rfl | hp
            · exact ⟨by simp, hv⟩
            · exact ⟨by simp [(hmem p hp).1], (hmem p hp).2⟩)
          (by
            have hperm := (heapInsert_perm (v, i) heap).map Prod.snd
            rw [hperm.nodup_iff, List.map_cons, List.nodup_cons]
            refine ⟨fun hc => ?_, hsnd⟩
            obtain ⟨p, hp, hpi⟩ := List.mem_map.mp hc
            have hpi' : p.2 = i := hpi
            exact hinotp (hpi' ▸ (hmem p hp).1))
          (by
            intro j hj
            rcases List.mem_append.mp hj with hj | hj
            · obtain ⟨p, hp, hpj⟩ := hall j hj
              exact Or.inl ⟨p, mem_heapInsert.mpr (Or.inr hp), hpj⟩
            · rw [List.mem_singleton] at hj
              subst hj
              exact Or.inl ⟨(v, j), mem_heapInsert.mpr (Or.inl rfl), rfl⟩)
      refine ⟨heap', h1, h2, ?_, h4, h5, h6⟩
      rw [h3]
      have : (processed ++ [i]).length + rest.length =
          processed.length + (i :: rest).length := by
        simp only [List.length_append, List.length_cons, List.length_nil]
        omega
      rw [this]
    · -- full heap: replace the minimum on a strictly greater key, else keep
      have hlk : heap.length = k := by omega
      have hplk : k ≤ processed.length := by omega
      obtain ⟨v0, i0, heapRest, rfl⟩ :
          ∃ v0 i0 rest', heap = (v0, i0) :: rest' := by
        cases heap with
        | nil => exact absurd hlk.symm (by simp; omega)
        | cons p rest' => exact ⟨p.1, p.2, rest', by rw [Prod.mk.eta]⟩
      rw [List.sorted_cons] at hs
      have hheadkey : keyAt key events i0 = v0 := by
        rw [keyAt, (hmem (v0, i0) (List.mem_cons_self _ _)).2]
        rfl
      have hsndRest : ((heapRest.map Prod.snd).Nodup) := by
        rw [List.map_cons, List.nodup_cons] at hsnd
        exact hsnd.2
      by_cases hcmp : v0 < v
      · rw [topkStep_replace hv hfull hcmp, hassoc]
        obtain ⟨heap', h1, h2, h3, h4, h5, h6⟩ :=
          topk_fold_spec k key events hkey hk rest (processed ++ [i])
            (heapInsert (v, i) heapRest) hnd' (heapInsert_sorted hs.2)
            (by
              rw [heapInsert_length]
              have hrl : heapRest.length + 1 = k := by
                simpa using hlk
              simp only [List.length_append, List.length_cons,
                List.length_nil]
              omega)
            (by
              intro p hp
              rcases mem_heapInsert.mp hp with rfl | hp
              · exact ⟨by simp, hv⟩
              · exact ⟨by
                  simp [(hmem p (List.mem_cons_of_mem _ hp)).1],
                  (hmem p (List.mem_cons_of_mem _ hp)).2⟩)
            (by
              have hperm := (heapInsert_perm (v, i) heapRest).map Prod.snd
              rw [hperm.nodup_iff, List.map_cons, List.nodup_cons]
              refine ⟨fun hc => ?_, hsndRest⟩
              obtain ⟨p, hp, hpi⟩ := List.mem_map.mp hc
              have hpi' : p.2 = i := hpi
              exact hinotp (hpi' ▸ (hmem p (List.mem_cons_of_mem _ hp)).1))
            (by
              intro j hj
              rcases List.mem_append.mp hj with hj | hj
              · rcases hdom j hj with ⟨p, hp, hpj⟩ | hle
                · rcases List.mem_cons.mp hp with rfl | hp
                  · -- j is the popped minimum i0
                    subst hpj
                    refine Or.inr fun q hq => ?_
                    rw [hheadkey]
                    rcases mem_heapInsert.mp hq with rfl | hq
                    · exact le_of_lt hcmp
                    · exact pairLE_fst_le (hs.1 _ hq)
                  · exact Or.inl ⟨p, mem_heapInsert.mpr (Or.inr hp), hpj⟩
                · refine Or.inr fun q hq => ?_
                  rcases mem_heapInsert.mp hq with rfl | hq
                  · have := hle (v0, i0) (List.mem_cons_self _ _)
                    exact le_trans this (le_of_lt hcmp)
                  · exact hle q (List.mem_cons_of_mem _ hq)
              · rw [List.mem_singleton] at hj
                subst hj
                exact Or.inl ⟨(v, j), mem_heapInsert.mpr (Or.inl rfl), rfl⟩)
        refine ⟨heap', h1, h2, ?_, h4, h5, h6⟩
        rw [h3]
        have : (processed ++ [i]).length + rest.length =
            processed.length + (i :: rest).length := by
          simp only [List.length_append, List.length_cons, List.length_nil]
          omega
        rw [this]
      · rw [topkStep_keep hv hfull hcmp, hassoc]
        obtain ⟨heap', h1, h2, h3, h4, h5, h6⟩ :=
          topk_fold_spec k key events hkey hk rest (processed ++ [i])
            ((v0, i0) :: heapRest) hnd' (List.sorted_cons.mpr hs)
            (by
              rw [hlk]
              simp only [List.length_append, List.length_cons,
                List.length_nil]
              omega)
            (by
              intro p hp
              exact ⟨by simp [(hmem p hp).1], (hmem p hp).2⟩)
            hsnd
            (by
              intro j hj
              rcases List.mem_append.mp hj with hj | hj
              · rcases hdom j hj with ⟨p, hp, hpj⟩ | hle
                · exact Or.inl ⟨p, hp, hpj⟩
                · exact Or.inr hle
              · rw [List.mem_singleton] at hj
                subst hj
                refine Or.inr fun q hq => ?_
                have hkj : keyAt key events j = v := by
                  rw [keyAt, hv]
                  rfl
                rw [hkj]
                rcases List.mem_cons.mp hq with rfl | hq
                · omega
                · have := pairLE_fst_le (hs.1 _ hq)
                  simp only at this
                  omega)
        refine ⟨heap', h1, h2, ?_, h4, h5, h6⟩
        rw [h3]
        have : (processed ++ [i]).length + rest.length =
            processed.length + (i :: rest).length := by
          simp only [List.length_append, List.length_cons, List.length_nil]
          omega
        rw [this]

theorem field_key_isSome {field : String} {key : DisasterEvent → Option Int}
    (h : field_key field = some key) : ∀ e, (key e).isSome := by
  intro e
  rw [field_key] at h
  repeat' split at h
  any_goals exact Option.noConfusion h
  all_goals
    injection h with h2
    subst h2
    rfl

/-- C1.  Corrected claim: on a known rank field, records whose underlying
value is null are NOT skipped — `_field_key` substitutes the sentinel `-1`
(or `-1.0`), so every selected record carries a key and participates.  For
`k ≥ 1` and a duplicate-free selection, `topk` succeeds and returns exactly
`min k |selection|` records drawn from the selection without repetition,
sorted descending by the key, each ranking at least as high as every
selected record left out (the dominance clause).  (`k = 0` on a nonempty
selection instead dereferences `heap[0]` on an empty heap — an
`IndexError`, `none` in the model — see the counterexample.) -/
theorem C1_topk_with_sentinel (events : List DisasterEvent) (ids : List Nat)
    (k : Nat) (field : String) (key : DisasterEvent → Option Int)
    (hfield : field_key field = some key) (hk : 1 ≤ k)
    (hnd : ids.Nodup) :
    ∃ res, topk events ids k field = some res ∧
      res.length = min k ids.length ∧
      ∃ chosen : List Nat,
        res = chosen.map (fun i => events.getD i defaultEvent) ∧
        chosen.Nodup ∧ (∀ i ∈ chosen, i ∈ ids) ∧
        List.Chain'
          (fun i j => keyAt key events j ≤ keyAt key events i) chosen ∧
        (∀ i ∈ ids, i ∉ chosen →
          ∀ j ∈ chosen, keyAt key events i ≤ keyAt key events j) := by
  obtain ⟨heap', h1, h2, h3, h4, h5, h6⟩ :=
    topk_fold_spec k key events (field_key_isSome hfield) hk ids [] []
      (by simpa using hnd) List.sorted_nil (by simp) (by simp) (by simp)
      (by simp)
  have hkfact : ∀ p ∈ heap', keyAt key events p.2 = p.1 := by
    intro p hp
    rw [keyAt, (h4 p hp).2]
    rfl
  refine ⟨heap'.reverse.map (fun p => events.getD p.2 defaultEvent), ?_, ?_,
    heap'.reverse.map Prod.snd, ?_, ?_, ?_, ?_, ?_⟩
  · simp only [topk, hfield, h1]
  · simp [h3]
  · rw [List.map_map]
    rfl
  · rw [List.map_reverse, List.nodup_reverse]
    exact h5
  · intro i hi
    obtain ⟨p, hp, rfl⟩ := List.mem_map.mp hi
    have := (h4 p (List.mem_reverse.mp hp)).1
    simpa using this
  · have hpw : List.Pairwise
        (fun p q : Int × Nat =>
          keyAt key events p.2 ≤ keyAt key events q.2) heap' := by
      refine List.Pairwise.imp_of_mem ?_ h2
      intro a b ha hb hab
      rw [hkfact a ha, hkfact b hb]
      exact pairLE_fst_le hab
    have hrev : List.Pairwise
        (fun i j => keyAt key events j ≤ keyAt key events i)
        (heap'.reverse.map Prod.snd) := by
      rw [List.pairwise_map, List.pairwise_reverse]
      exact hpw
    exact hrev.chain'
  · intro i hi hnotin j hj
    obtain ⟨p, hp, rfl⟩ := List.mem_map.mp hj
    have hp' := List.mem_reverse.mp hp
    rcases h6 i (by simpa using hi) with ⟨q, hq, hqi⟩ | hle
    · exact absurd (List.mem_map.mpr ⟨q, List.mem_reverse.mpr hq, hqi⟩)
        hnotin
    · rw [hkfact p hp']
      exact hle p hp'

theorem C1_topk_with_sentinel_witness :
    (1 : Nat) ≤ 2 ∧ ([0, 1] : List Nat).Nodup ∧
    ∃ res, topk demoEvents [0, 1] 2 "deaths" = some res ∧
      res.length = min 2 ([0, 1] : List Nat).length ∧
      ∃ chosen : List Nat,
        res = chosen.map (fun i => demoEvents.getD i defaultEvent) ∧
        chosen.Nodup ∧ (∀ i ∈ chosen, i ∈ ([0, 1] : List Nat)) ∧
        List.Chain'
          (fun i j =>
            keyAt (fun e => some ((e.total_deaths).getD (-1))) demoEvents j ≤
            keyAt (fun e => some ((e.total_deaths).getD (-1))) demoEvents i)
          chosen ∧
        (∀ i ∈ ([0, 1] : List Nat), i ∉ chosen →
          ∀ j ∈ chosen,
            keyAt (fun e => some ((e.total_deaths).getD (-1))) demoEvents i ≤
            keyAt (fun e => some ((e.total_deaths).getD (-1))) demoEvents j) :=
  ⟨by decide, by decide,
    C1_topk_with_sentinel demoEvents [0, 1] 2 "deaths"
      (fun e => some ((e.total_deaths).getD (-1))) rfl (by decide)
      (by decide)⟩

/-- C1 counterexample to the frozen claim.  `evB.total_deaths` is `None`,
yet `topk` over the selection `[1]` returns `evB` rather than skipping it:
`_field_key` already replaced the null by the sentinel `-1`, so the
`if v is None: continue` guard in `topk` is dead code.  Moreover `k = 0`
on a nonempty selection raises `IndexError` (modelled `none`) instead of
returning 0 records. -/
theorem C1_counterexample :
    topk demoEvents [1] 1 "deaths" = some [evB] ∧
    evB.total_deaths = none ∧
    topk demoEvents [0, 1] 0 "deaths" = none :=
  ⟨rfl, rfl, rfl⟩
end Odie
